import Mathlib

/-
Verification development for the evaluation and validation core of a
computation-network library (source file
MachineLearning/CNTKComputationNetworkLib/ComputationNetworkEvaluation.cpp).

The C++ methods are shallowly embedded as Lean functions over explicit
state.  Graph nodes are identified by natural numbers; the per-node
capabilities that the evaluator consults (operation name, layout,
multi-sequence handling, loop membership, children, ...) are fields of a
network record.  Calls that the evaluator makes into the node library
(EvaluateThisNode, ComputeGradientForChildren, masking, the begin/end
iteration hooks) are recorded as events in a trace; LogicError is an
error field that freezes the state, matching the C++ exception aborting
the call.
-/

namespace CNTK

/-- A dense matrix, standing in for Matrix of ElemType.  Only the shape
and contents matter for the embedded code (Resize and SetValue). -/
structure CMatrix where
  rows : Nat
  cols : Nat
  entries : List Int
deriving Repr, DecidableEq

/-- Matrix.Resize: changes the shape, contents unspecified (kept). -/
def CMatrix.resize (m : CMatrix) (r c : Nat) : CMatrix :=
  { m with rows := r, cols := c }

/-- Matrix.SetValue(scalar): fills every element with the scalar. -/
def CMatrix.setValueScalar (m : CMatrix) (v : Int) : CMatrix :=
  { m with entries := List.replicate (m.rows * m.cols) v }

/-- Matrix.SetValue(other): copies the other matrix wholesale. -/
def CMatrix.setValueMatrix (_m other : CMatrix) : CMatrix := other

/-- Events recording the calls the evaluator makes into the node
library.  A frame argument of none models the whole-minibatch
FrameRange(node.GetMBLayout()); some t models the FrameRange of time
step t. -/
inductive Ev where
  | updateFunctionMBSize (n : Nat)
  | onEvaluateBeginIteration (n : Nat)
  | validateCall (n : Nat) (final : Bool)
  | evaluateThisNode (n : Nat) (t : Option Nat)
  | maskMissingValuesColumnsToZero (n : Nat) (t : Option Nat)
  | updateEvalTimeStamp (n : Nat)
  | onEvaluateEndIteration (n : Nat)
  | onComputeGradientBeginIteration (n : Nat)
  | verifyNumParallelSequences (n : Nat)
  | maskMissingGradientColumnsToZero (n : Nat) (t : Option Nat)
  | computeGradientForChildren (n : Nat) (t : Option Nat)
  | onComputeGradientEndIteration (n : Nat)
  | clearGradientForAllNodes
  | resetEvalTimeStamp
deriving Repr, DecidableEq

/-- RecurrentInfo: a detected recurrent loop.  m_recurrentNodes is the
member list used by FindInRecurrentLoops, m_recurrentNodesForForward the
same nodes in intra-loop forward evaluation order, m_steppingDirection
is +1 (PastValue loop) or -1 (FutureValue loop).  The transient flags
m_completedEvaluate / m_completedGradient live in the evaluator state
(indexed by the loop position), not here. -/
structure RecurrentInfo where
  recurrentNodes : List Nat
  recurrentNodesForForward : List Nat
  steppingDirection : Int
deriving Repr, DecidableEq

/-- The static data of a ComputationNetwork that the evaluation source
file consults.  Per-node capabilities are total functions on node ids. -/
structure Net where
  recurrentInfo : List RecurrentInfo
  evalOrder : List Nat
  built : Bool
  nodeLayout : Nat → Option Nat
  layoutT : Option Nat → Nat
  children : Nat → List Nat
  opName : Nat → String
  reqMultiSeq : Nat → Bool
  isPartOfLoop : Nat → Bool
  isLeaf : Nat → Bool
  requiresPreCompute : Nat → Bool

/-- The mutable state threaded through Evaluate and ComputeGradient:
the per-loop completion flags, the timestamp machinery, the root node
gradient buffer, the call trace and the LogicError flag. -/
structure NState where
  completedEvaluate : List Bool
  completedGradient : List Bool
  timestamp : Nat → Nat
  clock : Nat
  rootGradient : CMatrix
  trace : List Ev
  err : Option String

def emit (e : Ev) (s : NState) : NState :=
  { s with trace := s.trace ++ [e] }

def emits (es : List Ev) (s : NState) : NState :=
  { s with trace := s.trace ++ es }

/-- FindInRecurrentLoops walks m_recurrentInfo and returns the first
loop whose m_recurrentNodes contains the node (the C++ returns a
pointer; the model also returns the loop position so that the
completion flags can be addressed). -/
def findLoopAux (n : Nat) : List RecurrentInfo → Nat → Option (Nat × RecurrentInfo)
  | [], _ => none
  | r :: rs, i => if n ∈ r.recurrentNodes then some (i, r) else findLoopAux n rs (i + 1)

def FindInRecurrentLoops (net : Net) (n : Nat) : Option (Nat × RecurrentInfo) :=
  findLoopAux n net.recurrentInfo 0

/-- Modelled from the spec: ComputationNode.IsFuncValueOlderThanInputs
is declared in the node library, outside this source file.  Spec
section 3 describes it as a timestamp comparison with the children of
the node: the function value is older than the inputs when some child
carries a newer timestamp. -/
def nodeIsFuncValueOlderThanInputs (net : Net) (ts : Nat → Nat) (n : Nat) : Bool :=
  (net.children n).any (fun c => ts n < ts c)

/-- ComputationNetwork.IsFuncValueOlderThanInputs (lines 243-255):
true when some node in the list reports stale and its operation name is
neither PastValue nor FutureValue. -/
def IsFuncValueOlderThanInputs (net : Net) (ts : Nat → Nat) (recurrentNodes : List Nat) : Bool :=
  recurrentNodes.any (fun n =>
    nodeIsFuncValueOlderThanInputs net ts n
      && net.opName n != "PastValue"
      && net.opName n != "FutureValue")

/-- FrameRangeIteration(layout, direction): the frames of the layout in
stepping order, 0..T-1 for direction +1 and T-1..0 for direction -1.
Reverse iteration (rbegin..rend) is the List.reverse of this. -/
def frameSeq (T : Nat) (dir : Int) : List Nat :=
  if dir = -1 then (List.range T).reverse else List.range T

/-- UpdateEvalTimeStamp: stamps the node with the global counter and
advances the counter. -/
def updateEvalTimeStampS (n : Nat) (s : NState) : NState :=
  { s with trace := s.trace ++ [Ev.updateEvalTimeStamp n],
           timestamp := fun m => if m = n then s.clock else s.timestamp m,
           clock := s.clock + 1 }

/-- Lines 72-79 of Evaluate: per loop member, check that the member
shares the loop layout (LogicError on mismatch or null layout), then
UpdateFunctionMBSize and OnEvaluateBeginIteration. -/
def evalLoopPrep (net : Net) (pMBLayout : Option Nat) : List Nat → NState → NState
  | [], s => s
  | n2 :: rest, s =>
    if pMBLayout.isNone || (net.nodeLayout n2 != pMBLayout) then
      { s with err := some "Evaluate: all nodes inside a recurrent loop must have an identical layout" }
    else
      evalLoopPrep net pMBLayout rest
        (emits [Ev.updateFunctionMBSize n2, Ev.onEvaluateBeginIteration n2] s)

/-- Lines 92-98 of Evaluate, one loop member at one time step:
EvaluateThisNode(t), optional MaskMissingValuesColumnsToZero(t),
UpdateEvalTimeStamp. -/
def evalFrameStepNode (net : Net) (t : Nat) (n2 : Nat) (s : NState) : NState :=
  let s1 := emit (Ev.evaluateThisNode n2 (some t)) s
  let s2 := if net.reqMultiSeq n2 then emit (Ev.maskMissingValuesColumnsToZero n2 (some t)) s1 else s1
  updateEvalTimeStampS n2 s2

def evalFrameNodes (net : Net) (t : Nat) : List Nat → NState → NState
  | [], s => s
  | n2 :: rest, s => evalFrameNodes net t rest (evalFrameStepNode net t n2 s)

/-- Lines 89-99 of Evaluate: the frame loop of a recurrent loop, frames
in stepping order, members in forward order within each frame. -/
def evalFrames (net : Net) (nodes : List Nat) : List Nat → NState → NState
  | [], s => s
  | t :: rest, s => evalFrames net nodes rest (evalFrameNodes net t nodes s)

/-- Lines 64-105 of Evaluate: run one recurrent loop frame by frame.
The C++ reads recurrentNodes[0] to fetch the loop layout; an empty
member list would be undefined behaviour and is modelled as an error. -/
def evalLoopBody (net : Net) (i : Nat) (r : RecurrentInfo) (s : NState) : NState :=
  match r.recurrentNodesForForward with
  | [] => { s with err := some "Evaluate: recurrent loop has no member nodes" }
  | n0 :: _ =>
    let pMBLayout := net.nodeLayout n0
    let s1 := evalLoopPrep net pMBLayout r.recurrentNodesForForward s
    if s1.err.isSome then s1 else
    let s2 := emits (r.recurrentNodesForForward.map (fun n2 => Ev.validateCall n2 true)) s1
    let frames := frameSeq (net.layoutT pMBLayout) r.steppingDirection
    let s3 := evalFrames net r.recurrentNodesForForward frames s2
    let s4 := emits (r.recurrentNodesForForward.map Ev.onEvaluateEndIteration) s3
    { s4 with completedEvaluate := s4.completedEvaluate.set i true }

/-- Lines 110-129 of Evaluate: the whole-minibatch path for a node that
is in no loop and whose function value is older than its inputs. -/
def wholeBatchEval (net : Net) (n : Nat) (s : NState) : NState :=
  let s1 := emit (Ev.updateFunctionMBSize n) s
  let s2 := if !net.isLeaf n && !net.requiresPreCompute n then emit (Ev.validateCall n true) s1 else s1
  let s3 := emit (Ev.onEvaluateBeginIteration n) s2
  let s4 := emit (Ev.evaluateThisNode n none) s3
  let s5 := if net.reqMultiSeq n then emit (Ev.maskMissingValuesColumnsToZero n none) s4 else s4
  let s6 := emit (Ev.onEvaluateEndIteration n) s5
  updateEvalTimeStampS n s6

/-- Lines 57-132 of Evaluate: the dispatch for one node of the
evaluation order. -/
def evalStep (net : Net) (n : Nat) (s : NState) : NState :=
  if s.err.isSome then s else
  match FindInRecurrentLoops net n with
  | some (i, r) =>
    if IsFuncValueOlderThanInputs net s.timestamp r.recurrentNodesForForward
        && !(s.completedEvaluate.getD i false) then
      evalLoopBody net i r s
    else
      emit (Ev.onEvaluateEndIteration n) s
  | none =>
    if nodeIsFuncValueOlderThanInputs net s.timestamp n then
      wholeBatchEval net n s
    else
      emit (Ev.onEvaluateEndIteration n) s

def evalWalk (net : Net) : List Nat → NState → NState
  | [], s => s
  | n :: rest, s => evalWalk net rest (evalStep net n s)

/-- ComputationNetwork.Evaluate (lines 38-133): check the build cache,
reset every m_completedEvaluate flag to false, then walk the nodes in
evaluation order. -/
def Evaluate (net : Net) (s : NState) : NState :=
  if !net.built then
    { s with err := some "Evaluate: BuildAndValidateSubNetwork has not been called on this node" }
  else
    evalWalk net net.evalOrder
      { s with completedEvaluate := List.replicate net.recurrentInfo.length false }

/-- Parameters of ComputeGradient (lines 139-143). -/
structure GradParams where
  bResetToOne : Bool
  rootGradientInitValue : Option CMatrix
  bClearGradient : Bool
  resetTimeStampAfterComputation : Bool
deriving Repr, DecidableEq

/-- Modelled from the spec: ClearGradientForAllNodes is declared
outside this source file.  Spec section 4.6 step 2 says it zeroes every
gradient buffer in the subnetwork; the model tracks only the root
gradient buffer and records the call as an event. -/
def clearGradientForAllNodesS (s : NState) : NState :=
  let g := s.rootGradient
  let zeroed : CMatrix := { g with entries := List.replicate (g.rows * g.cols) 0 }
  { s with rootGradient := zeroed, trace := s.trace ++ [Ev.clearGradientForAllNodes] }

/-- Modelled from the spec: ResetEvalTimeStamp is declared outside this
source file.  Spec section 4.6 step 6 says it resets the evaluation
timestamps of the subnetwork so that the next Evaluate recomputes
everything. -/
def resetEvalTimeStampS (s : NState) : NState :=
  { s with timestamp := fun _ => 0, trace := s.trace ++ [Ev.resetEvalTimeStamp] }

/-- Lines 163-170 of ComputeGradient: seed the root gradient.  If
bResetToOne, resize the root gradient to 1x1 and set it to 1; then, if
a user gradient was supplied, overwrite with it. -/
def seedRootGradient (ps : GradParams) (g : CMatrix) : CMatrix :=
  let g1 := if ps.bResetToOne then (g.resize 1 1).setValueScalar 1 else g
  match ps.rootGradientInitValue with
  | some v => g1.setValueMatrix v
  | none => g1

/-- Modelled from the spec: GetGradientCalcOrder is declared outside
this source file.  Spec section 4.2 says it returns the same node set
as the evaluation order, in reverse order. -/
def GetGradientCalcOrder (net : Net) : List Nat :=
  net.evalOrder.reverse

/-- Lines 192-199 of ComputeGradient, one frame of the backward loop:
for each member (the caller passes the members already reversed),
VerifyNumParallelSequences, optional MaskMissingGradientColumnsToZero,
ComputeGradientForChildren. -/
def gradFrameEvents (net : Net) (t : Nat) (nodes : List Nat) : List Ev :=
  nodes.flatMap (fun n2 =>
    Ev.verifyNumParallelSequences n2 ::
      ((if net.reqMultiSeq n2 then [Ev.maskMissingGradientColumnsToZero n2 (some t)] else []) ++
        [Ev.computeGradientForChildren n2 (some t)]))

/-- Lines 185-203 of ComputeGradient: the backward pass of one
recurrent loop.  OnComputeGradientBeginIteration for every member in
forward order, then the frames in reverse stepping order with the
members in reverse forward order, then OnComputeGradientEndIteration,
then m_completedGradient := true.  The C++ reads recurrentNodes[0] for
the layout; an empty member list is modelled as an error. -/
def gradLoopBody (net : Net) (i : Nat) (r : RecurrentInfo) (s : NState) : NState :=
  let s1 := emits (r.recurrentNodesForForward.map Ev.onComputeGradientBeginIteration) s
  match r.recurrentNodesForForward with
  | [] => { s1 with err := some "ComputeGradient: recurrent loop has no member nodes" }
  | n0 :: _ =>
    let pMBLayout := net.nodeLayout n0
    let frames := frameSeq (net.layoutT pMBLayout) r.steppingDirection
    let s2 := emits (frames.reverse.flatMap
        (fun t => gradFrameEvents net t r.recurrentNodesForForward.reverse)) s1
    let s3 := emits (r.recurrentNodesForForward.map Ev.onComputeGradientEndIteration) s2
    { s3 with completedGradient := s3.completedGradient.set i true }

/-- Lines 173-222 of ComputeGradient: the dispatch for one node of the
gradient order.  A loop member runs its loop backward pass unless the
loop is already completed; a non-loop node gets the whole-batch
treatment, with the LogicError for multi-sequence nodes that claim loop
membership (lines 212-217). -/
def gradStep (net : Net) (n : Nat) (s : NState) : NState :=
  if s.err.isSome then s else
  match FindInRecurrentLoops net n with
  | some (i, r) =>
    if !(s.completedGradient.getD i false) then gradLoopBody net i r s else s
  | none =>
    let s1 := emit (Ev.onComputeGradientBeginIteration n) s
    if net.reqMultiSeq n then
      if net.isPartOfLoop n then
        { s1 with err := some "Evaluate: applying whole-MB operation to node that participates in a loop" }
      else
        emits [Ev.maskMissingGradientColumnsToZero n none,
               Ev.computeGradientForChildren n none,
               Ev.onComputeGradientEndIteration n] s1
    else
      emits [Ev.computeGradientForChildren n none,
             Ev.onComputeGradientEndIteration n] s1

def gradWalk (net : Net) : List Nat → NState → NState
  | [], s => s
  | n :: rest, s => gradWalk net rest (gradStep net n s)

/-- Lines 153-228 of ComputeGradient, after the forward pass: optional
gradient clearing, root gradient seeding, the walk of the gradient
order, and the optional timestamp reset. -/
def computeGradientBackward (net : Net) (ps : GradParams) (s1 : NState) : NState :=
  let s2 := if ps.bClearGradient then clearGradientForAllNodesS s1 else s1
  let s3 := { s2 with rootGradient := seedRootGradient ps s2.rootGradient }
  let s4 := gradWalk net (GetGradientCalcOrder net) s3
  if ps.resetTimeStampAfterComputation then resetEvalTimeStampS s4 else s4

/-- ComputationNetwork.ComputeGradient (lines 139-229): forward pass
via Evaluate, then the backward phase.  The LogicError thrown inside
Evaluate aborts the whole call, hence the error guard after the
forward pass. -/
def ComputeGradient (net : Net) (ps : GradParams) (s : NState) : NState :=
  let s1 := Evaluate net s
  if s1.err.isSome then s1 else computeGradientBackward net ps s1

/-- Events of BuildAndValidateSubNetwork: the cache insertion and the
three build phases. -/
inductive BuildEv where
  | insertRoot (root : Nat)
  | formRecurrentLoops (root : Nat)
  | collectInputAndLearnableParameters (root : Nat)
  | validateSubNetworkCall (root : Nat)
deriving Repr, DecidableEq

/-- ComputationNetwork.BuildAndValidateSubNetwork (lines 498-516): the
root is inserted into m_built first; when the insertion reports the
root as already present the method returns at once, otherwise it runs
FormRecurrentLoops, CollectInputAndLearnableParameters and
ValidateSubNetwork, in that order. -/
def BuildAndValidateSubNetwork (built : List Nat) (root : Nat) : List Nat × List BuildEv :=
  if root ∈ built then (built, [])
  else (root :: built,
    [BuildEv.insertRoot root,
     BuildEv.formRecurrentLoops root,
     BuildEv.collectInputAndLearnableParameters root,
     BuildEv.validateSubNetworkCall root])

/-- ComputationNetwork.BuiltAndValidatedSubNetwork (lines 518-521):
set membership in the build cache. -/
def BuiltAndValidatedSubNetwork (built : List Nat) (root : Nat) : Bool :=
  built.contains root

/-- Replay of build events against a cache: the insertion event is the
only one that changes the cache. -/
def builtAfter (built : List Nat) (evs : List BuildEv) : List Nat :=
  evs.foldl (fun b e => match e with | BuildEv.insertRoot r => r :: b | _ => b) built

/-- Projection of the trace onto EvaluateThisNode calls: which node was
evaluated over which frame range. -/
def evalPair : Ev → Option (Nat × Option Nat)
  | Ev.evaluateThisNode n t => some (n, t)
  | _ => none

def evalPairs (tr : List Ev) : List (Nat × Option Nat) :=
  tr.filterMap evalPair

/-- Projection of the trace onto ComputeGradientForChildren calls. -/
def gradPair : Ev → Option (Nat × Option Nat)
  | Ev.computeGradientForChildren n t => some (n, t)
  | _ => none

def gradPairs (tr : List Ev) : List (Nat × Option Nat) :=
  tr.filterMap gradPair

/-- Structural well-formedness of the loop catalogue, as established by
FormRecurrentLoops (outside this source file): the evaluation order
lists each node once, each loop lists each member once, the forward
ordering is a permutation of the member list, and distinct loops are
disjoint (strongly connected components do not overlap). -/
def WFNet (net : Net) : Prop :=
  net.evalOrder.Nodup
  ∧ (∀ r ∈ net.recurrentInfo, r.recurrentNodesForForward.Nodup)
  ∧ (∀ r ∈ net.recurrentInfo, ∀ n ∈ r.recurrentNodesForForward, n ∈ r.recurrentNodes)
  ∧ (∀ r ∈ net.recurrentInfo, ∀ n ∈ r.recurrentNodes, n ∈ r.recurrentNodesForForward)
  ∧ net.recurrentInfo.Pairwise (fun r1 r2 => ∀ n, n ∈ r1.recurrentNodes → n ∉ r2.recurrentNodes)

/-- C8: IsFuncValueOlderThanInputs(nodes) returns true if and only if
some node in the list both reports stale and has an operation name that
is neither PastValue nor FutureValue; stale delay nodes alone never
make it return true. -/
theorem C8_IsFuncValueOlderThanInputs_iff (net : Net) (ts : Nat → Nat) (nodes : List Nat) :
    IsFuncValueOlderThanInputs net ts nodes = true ↔
      ∃ n ∈ nodes, nodeIsFuncValueOlderThanInputs net ts n = true ∧
        net.opName n ≠ "PastValue" ∧ net.opName n ≠ "FutureValue" := by
  unfold IsFuncValueOlderThanInputs
  simp [List.any_eq_true, Bool.and_eq_true, bne_iff_ne, and_assoc]

/-- C4: in ComputeGradient, if bResetToOne the root gradient is resized
to 1x1 and set to 1; if a user gradient is supplied the root gradient
is overwritten with it; with both, both are applied in sequence and the
user gradient wins. -/
theorem C4_seedRootGradient_correct (ps : GradParams) (g : CMatrix) :
    (ps.bResetToOne = true → ps.rootGradientInitValue = none →
        seedRootGradient ps g = { rows := 1, cols := 1, entries := [1] })
    ∧ (∀ v, ps.rootGradientInitValue = some v → seedRootGradient ps g = v)
    ∧ (ps.bResetToOne = true → ∀ v, ps.rootGradientInitValue = some v →
        seedRootGradient ps g = CMatrix.setValueMatrix ((g.resize 1 1).setValueScalar 1) v) := by
  refine ⟨fun h1 h2 => ?_, fun v hv => ?_, fun h1 v hv => ?_⟩
  · simp [seedRootGradient, h1, h2, CMatrix.resize, CMatrix.setValueScalar]
  · simp [seedRootGradient, hv, CMatrix.setValueMatrix]
  · simp [seedRootGradient, h1, hv, CMatrix.setValueMatrix]

theorem C4_seedRootGradient_correct_witness :
    seedRootGradient ⟨true, none, false, false⟩ ⟨4, 4, []⟩ = ⟨1, 1, [1]⟩
    ∧ seedRootGradient ⟨true, some ⟨2, 3, [5]⟩, false, false⟩ ⟨4, 4, []⟩ = ⟨2, 3, [5]⟩ :=
  ⟨(C4_seedRootGradient_correct ⟨true, none, false, false⟩ ⟨4, 4, []⟩).1 rfl rfl,
   (C4_seedRootGradient_correct ⟨true, some ⟨2, 3, [5]⟩, false, false⟩ ⟨4, 4, []⟩).2.1
     ⟨2, 3, [5]⟩ rfl⟩

/-- C5 counterexample: on a fresh cache, BuildAndValidateSubNetwork
inserts the root as its very first action, so after the first executed
action the root is already a member of the cache although the
ValidateSubNetwork call has not happened yet.  This refutes the claim
that membership becomes true only after validation has completed. -/
theorem C5_counterexample :
    BuiltAndValidatedSubNetwork (builtAfter [] ((BuildAndValidateSubNetwork [] 0).2.take 1)) 0 = true
    ∧ BuildEv.validateSubNetworkCall 0 ∉ (BuildAndValidateSubNetwork [] 0).2.take 1 := by
  decide

/-- C5 amended: BuildAndValidateSubNetwork returns immediately with no
effect when the root is already in the cache; otherwise it inserts the
root into the cache FIRST and then runs FormRecurrentLoops,
CollectInputAndLearnableParameters and ValidateSubNetwork in that
order, so set membership is true from the start of the build, not only
after validation has completed. -/
theorem C5_amended_build (built : List Nat) (root : Nat) :
    (root ∈ built → BuildAndValidateSubNetwork built root = (built, []))
    ∧ (root ∉ built →
        BuildAndValidateSubNetwork built root =
          (root :: built,
            [BuildEv.insertRoot root, BuildEv.formRecurrentLoops root,
             BuildEv.collectInputAndLearnableParameters root,
             BuildEv.validateSubNetworkCall root])
        ∧ BuiltAndValidatedSubNetwork (root :: built) root = true) := by
  refine ⟨fun h => ?_, fun h => ⟨?_, ?_⟩⟩
  · simp [BuildAndValidateSubNetwork, h]
  · simp [BuildAndValidateSubNetwork, h]
  · simp [BuiltAndValidatedSubNetwork]

/-- The events of one forward frame of a recurrent loop (lines 92-98),
as a pure list: per member, EvaluateThisNode(t), optional masking,
UpdateEvalTimeStamp. -/
def evalFrameEvents (net : Net) (t : Nat) (nodes : List Nat) : List Ev :=
  nodes.flatMap (fun n2 =>
    Ev.evaluateThisNode n2 (some t) ::
      ((if net.reqMultiSeq n2 then [Ev.maskMissingValuesColumnsToZero n2 (some t)] else []) ++
        [Ev.updateEvalTimeStamp n2]))

theorem evalFrameStepNode_trace (net : Net) (t n2 : Nat) (s : NState) :
    (evalFrameStepNode net t n2 s).trace =
      s.trace ++ (Ev.evaluateThisNode n2 (some t) ::
        ((if net.reqMultiSeq n2 then [Ev.maskMissingValuesColumnsToZero n2 (some t)] else []) ++
          [Ev.updateEvalTimeStamp n2])) := by
  by_cases h : net.reqMultiSeq n2 <;>
    simp [evalFrameStepNode, emit, updateEvalTimeStampS, h]

theorem evalFrameNodes_trace (net : Net) (t : Nat) :
    ∀ (nodes : List Nat) (s : NState),
      (evalFrameNodes net t nodes s).trace = s.trace ++ evalFrameEvents net t nodes
  | [], s => by simp [evalFrameNodes, evalFrameEvents]
  | n2 :: rest, s => by
    simp [evalFrameNodes, evalFrameEvents, evalFrameNodes_trace net t rest,
          evalFrameStepNode_trace]

theorem evalFrames_trace (net : Net) (nodes : List Nat) :
    ∀ (frames : List Nat) (s : NState),
      (evalFrames net nodes frames s).trace =
        s.trace ++ frames.flatMap (fun t => evalFrameEvents net t nodes)
  | [], s => by simp [evalFrames]
  | t :: rest, s => by
    simp [evalFrames, evalFrames_trace net nodes rest, evalFrameNodes_trace]

theorem filterMap_evalPair_evalFrameEvents (net : Net) (t : Nat) :
    ∀ nodes : List Nat,
      List.filterMap evalPair (evalFrameEvents net t nodes)
        = nodes.map (fun n2 => (n2, some t))
  | [] => rfl
  | n2 :: rest => by
    rw [show evalFrameEvents net t (n2 :: rest) =
        (Ev.evaluateThisNode n2 (some t) ::
          ((if net.reqMultiSeq n2 then [Ev.maskMissingValuesColumnsToZero n2 (some t)] else []) ++
            [Ev.updateEvalTimeStamp n2])) ++ evalFrameEvents net t rest from rfl]
    rw [List.filterMap_append, filterMap_evalPair_evalFrameEvents net t rest]
    by_cases h : net.reqMultiSeq n2 <;> simp [evalPair, h]

theorem filterMap_gradPair_gradFrameEvents (net : Net) (t : Nat) :
    ∀ nodes : List Nat,
      List.filterMap gradPair (gradFrameEvents net t nodes)
        = nodes.map (fun n2 => (n2, some t))
  | [] => rfl
  | n2 :: rest => by
    rw [show gradFrameEvents net t (n2 :: rest) =
        (Ev.verifyNumParallelSequences n2 ::
          ((if net.reqMultiSeq n2 then [Ev.maskMissingGradientColumnsToZero n2 (some t)] else []) ++
            [Ev.computeGradientForChildren n2 (some t)])) ++ gradFrameEvents net t rest from rfl]
    rw [List.filterMap_append, filterMap_gradPair_gradFrameEvents net t rest]
    by_cases h : net.reqMultiSeq n2 <;> simp [gradPair, h]

/-- C6: the backward pass of a recurrent loop is the exact reverse of
the forward pass on both axes: the ComputeGradientForChildren calls of
the backward frame iteration (frames in reverse stepping order, members
in reverse forward order) are, pair for pair, the reverse of the
EvaluateThisNode calls of the forward frame iteration; and the gradient
node order is the reverse of the evaluation order. -/
theorem C6_backward_reverse_of_forward (net : Net) (nodes : List Nat) (T : Nat) (dir : Int) :
    gradPairs ((frameSeq T dir).reverse.flatMap
        (fun t => gradFrameEvents net t nodes.reverse))
      = (evalPairs ((frameSeq T dir).flatMap (fun t => evalFrameEvents net t nodes))).reverse
    ∧ GetGradientCalcOrder net = net.evalOrder.reverse := by
  refine ⟨?_, rfl⟩
  simp only [gradPairs, evalPairs, List.filterMap_flatMap,
    filterMap_gradPair_gradFrameEvents, filterMap_evalPair_evalFrameEvents,
    List.reverse_flatMap, Function.comp_def, List.map_reverse]

theorem C5_amended_build_witness :
    BuildAndValidateSubNetwork [1] 1 = ([1], [])
    ∧ BuildAndValidateSubNetwork [] 0 =
        ([0], [BuildEv.insertRoot 0, BuildEv.formRecurrentLoops 0,
               BuildEv.collectInputAndLearnableParameters 0,
               BuildEv.validateSubNetworkCall 0]) :=
  ⟨(C5_amended_build [1] 1).1 (by decide),
   ((C5_amended_build [] 0).2 (by decide)).1⟩

/-- A concrete network with no recurrent loops whose single node 3
claims IsPartOfLoop but does not require multi-sequence handling. -/
def netWB : Net :=
  { recurrentInfo := []
    evalOrder := [3]
    built := true
    nodeLayout := fun _ => some 0
    layoutT := fun _ => 1
    children := fun _ => []
    opName := fun _ => "Times"
    reqMultiSeq := fun _ => false
    isPartOfLoop := fun _ => true
    isLeaf := fun _ => true
    requiresPreCompute := fun _ => false }

/-- netWB with multi-sequence handling switched on. -/
def netWBms : Net :=
  { netWB with reqMultiSeq := fun _ => true }

/-- A fresh evaluator state: no flags, zero timestamps, empty trace. -/
def sInit : NState :=
  { completedEvaluate := []
    completedGradient := []
    timestamp := fun _ => 0
    clock := 0
    rootGradient := ⟨1, 1, [0]⟩
    trace := []
    err := none }

/-- C9 counterexample: a node that claims IsPartOfLoop but does not
require multi-sequence handling takes the whole-batch gradient path
with no error: ComputeGradientForChildren over the whole minibatch is
applied to it and the run ends without WholeBatchOnLoopNode.  This
refutes the claim that any IsPartOfLoop node on the non-loop branch is
fatal. -/
theorem C9_counterexample :
    netWB.isPartOfLoop 3 = true
    ∧ (ComputeGradient netWB ⟨false, none, false, false⟩ sInit).err = none
    ∧ Ev.computeGradientForChildren 3 none
        ∈ (ComputeGradient netWB ⟨false, none, false, false⟩ sInit).trace := by
  decide

/-- C9 amended: in the non-loop branch of ComputeGradient the fatal
WholeBatchOnLoopNode error fires exactly when the node both requires
multi-sequence handling and claims IsPartOfLoop (the check sits inside
the IsNodeReqMultiSeqHandling branch); in the fatal case the error is
raised after OnComputeGradientBeginIteration and before
ComputeGradientForChildren. -/
theorem C9_amended_wholeBatchGuard (net : Net) (n : Nat) (s : NState)
    (herr : s.err = none) (hmem : FindInRecurrentLoops net n = none) :
    ((gradStep net n s).err.isSome) = (net.reqMultiSeq n && net.isPartOfLoop n)
    ∧ (net.reqMultiSeq n = true → net.isPartOfLoop n = true →
        (gradStep net n s).trace = s.trace ++ [Ev.onComputeGradientBeginIteration n]) := by
  have h0 : s.err.isSome = false := by simp [herr]
  by_cases h1 : net.reqMultiSeq n <;> by_cases h2 : net.isPartOfLoop n <;>
    simp [gradStep, h0, hmem, h1, h2, emit, emits]

theorem C9_amended_wholeBatchGuard_witness :
    (gradStep netWBms 3 sInit).err.isSome = (netWBms.reqMultiSeq 3 && netWBms.isPartOfLoop 3)
    ∧ (gradStep netWBms 3 sInit).trace = sInit.trace ++ [Ev.onComputeGradientBeginIteration 3] :=
  ⟨(C9_amended_wholeBatchGuard netWBms 3 sInit rfl rfl).1,
   (C9_amended_wholeBatchGuard netWBms 3 sInit rfl rfl).2 rfl rfl⟩

/-- C10: the backward pass is unconditional.  A node in no recurrent
loop gets OnComputeGradientBeginIteration, ComputeGradientForChildren
and OnComputeGradientEndIteration with no timestamp or needs-gradient
guard (the state, including all timestamps, is arbitrary); a loop with
its completion flag clear runs its full backward frame iteration with
no staleness precondition, unlike the forward pass which is guarded by
IsFuncValueOlderThanInputs. -/
theorem C10_backward_unconditional :
    (∀ (net : Net) (n : Nat) (s : NState), s.err = none →
        FindInRecurrentLoops net n = none →
        (net.reqMultiSeq n && net.isPartOfLoop n) = false →
        (gradStep net n s).trace =
          s.trace ++ (Ev.onComputeGradientBeginIteration n ::
            ((if net.reqMultiSeq n then [Ev.maskMissingGradientColumnsToZero n none] else []) ++
              [Ev.computeGradientForChildren n none, Ev.onComputeGradientEndIteration n])))
    ∧ (∀ (net : Net) (n : Nat) (s : NState) (i : Nat) (r : RecurrentInfo) (n0 : Nat) (ns : List Nat),
        s.err = none →
        FindInRecurrentLoops net n = some (i, r) →
        s.completedGradient.getD i false = false →
        r.recurrentNodesForForward = n0 :: ns →
        (gradStep net n s).trace =
          s.trace ++ (r.recurrentNodesForForward.map Ev.onComputeGradientBeginIteration
            ++ (frameSeq (net.layoutT (net.nodeLayout n0)) r.steppingDirection).reverse.flatMap
                (fun t => gradFrameEvents net t r.recurrentNodesForForward.reverse)
            ++ r.recurrentNodesForForward.map Ev.onComputeGradientEndIteration)) := by
  constructor
  · intro net n s herr hmem hcombo
    have h0 : s.err.isSome = false := by simp [herr]
    by_cases h1 : net.reqMultiSeq n
    · have h2 : net.isPartOfLoop n = false := by
        cases h3 : net.isPartOfLoop n
        · rfl
        · rw [h1, h3] at hcombo; cases hcombo
      simp [gradStep, h0, hmem, h1, h2, emit, emits]
    · simp [gradStep, h0, hmem, h1, emit, emits]
  · intro net n s i r n0 ns herr hmem hflag hfwd
    have h0 : s.err.isSome = false := by simp [herr]
    rw [List.getD_eq_getElem?_getD] at hflag
    rw [hfwd]
    simp [gradStep, gradLoopBody, h0, hmem, hflag, hfwd, emit, emits]

/-- A concrete network with one single-node recurrent loop over a
two-frame layout. -/
def netLoop1 : Net :=
  { recurrentInfo := [⟨[3], [3], 1⟩]
    evalOrder := [3]
    built := true
    nodeLayout := fun _ => some 0
    layoutT := fun _ => 2
    children := fun _ => []
    opName := fun _ => "Plus"
    reqMultiSeq := fun _ => false
    isPartOfLoop := fun _ => true
    isLeaf := fun _ => false
    requiresPreCompute := fun _ => false }

/-- A state for netLoop1 whose gradient completion flag is clear. -/
def sLoopClear : NState :=
  { sInit with completedEvaluate := [false], completedGradient := [false] }

theorem C10_backward_unconditional_witness :
    (gradStep netWB 3 sInit).trace =
      sInit.trace ++ (Ev.onComputeGradientBeginIteration 3 ::
        ((if netWB.reqMultiSeq 3 then [Ev.maskMissingGradientColumnsToZero 3 none] else []) ++
          [Ev.computeGradientForChildren 3 none, Ev.onComputeGradientEndIteration 3]))
    ∧ (gradStep netLoop1 3 sLoopClear).trace =
        sLoopClear.trace ++ (([3] : List Nat).map Ev.onComputeGradientBeginIteration
          ++ (frameSeq (netLoop1.layoutT (netLoop1.nodeLayout 3)) 1).reverse.flatMap
              (fun t => gradFrameEvents netLoop1 t ([3] : List Nat).reverse)
          ++ ([3] : List Nat).map Ev.onComputeGradientEndIteration) :=
  ⟨C10_backward_unconditional.1 netWB 3 sInit rfl rfl rfl,
   C10_backward_unconditional.2 netLoop1 3 sLoopClear 0 ⟨[3], [3], 1⟩ 3 [] rfl rfl rfl rfl⟩

/-- A state for netLoop1 whose gradient completion flag is still set
(as left behind by a previous ComputeGradient call). -/
def sLoopDone : NState :=
  { sInit with completedEvaluate := [false], completedGradient := [true] }

/-- C1 counterexample: ComputeGradient never resets m_completedGradient.
Starting a call with the loop flag still set (and bClearGradient =
false), the whole call performs zero ComputeGradientForChildren
invocations and ends without error, with the flag still set: the
backward pass of the loop does not execute exactly once per call.  This
refutes the claimed reset of every m_completedGradient at the start of
the call. -/
theorem C1_counterexample :
    gradPairs (ComputeGradient netLoop1 ⟨true, none, false, false⟩ sLoopDone).trace = []
    ∧ (ComputeGradient netLoop1 ⟨true, none, false, false⟩ sLoopDone).err = none
    ∧ (ComputeGradient netLoop1 ⟨true, none, false, false⟩ sLoopDone).completedGradient = [true] := by
  decide

/-- The per-node mutable attributes that Validate can change: the
MBLayout link, the dimensions, the image layouts (opaque) and the
needs-gradient flag. -/
structure VData where
  mbLayout : Option Nat
  dims : Nat × Nat
  imageLayouts : Nat
  needsGradient : Bool
deriving Repr, DecidableEq

/-- Static per-node structure consulted by ValidateNodes. -/
structure VNode where
  children : List Nat
  isLeaf : Bool
  isParameterUpdateRequired : Bool
deriving Repr, DecidableEq

/-- The validation environment: the subnetwork nodes in evaluation
order, their static structure, and the external Validate behaviour.
Validate may read and update the mutable data of the validated node and
of its children (dimension inference writes child dims, which is why
ValidateNodes compares child dims before and after). -/
structure VEnv where
  nodes : List Nat
  info : Nat → VNode
  validateBehavior : Bool → Nat → (Nat → VData) → (Nat → VData)

/-- Mutable validation state: per-node data and visited flags, the
redo counter and the LogicError flag. -/
structure VState where
  data : Nat → VData
  visited : Nat → Bool
  todo : Nat
  err : Option String

/-- The node data after Validate(isFinal) and the needs-gradient
or-propagation over the children (lines 462-468): Validate may rewrite
any node's data; then the validated node's needs-gradient flag absorbs
its children's flags. -/
def vPropagatedData (env : VEnv) (isFinalValidationPass : Bool) (n : Nat) (s : VState) : Nat → VData :=
  let data1 := env.validateBehavior isFinalValidationPass n s.data
  let ng2 := (env.info n).children.foldl
    (fun b c => b || (data1 c).needsGradient) (data1 n).needsGradient
  fun m => if m = n then { data1 n with needsGradient := ng2 } else data1 m

/-- The stability comparison of lines 469-478: the pre-Validate
snapshots of MBLayout, own dims, child dims and image layouts against
their values after Validate and propagation, and the post-Validate
needs-gradient snapshot against its value after propagation. -/
def vUnchanged (env : VEnv) (isFinalValidationPass : Bool) (n : Nat) (s : VState) : Bool :=
  let data1 := env.validateBehavior isFinalValidationPass n s.data
  let data2 := vPropagatedData env isFinalValidationPass n s
  ((s.data n).mbLayout == (data2 n).mbLayout)
    && ((s.data n).dims == (data2 n).dims)
    && ((env.info n).children.map (fun c => (s.data c).dims)
          == (env.info n).children.map (fun c => (data2 c).dims))
    && ((s.data n).imageLayouts == (data2 n).imageLayouts)
    && ((data1 n).needsGradient == (data2 n).needsGradient)

/-- Lines 436-488 of ValidateNodes, the body for one node: skip unless
some child is visited or the node is a leaf; otherwise Validate the
node (snapshots and propagation as in vPropagatedData / vUnchanged) and
mark it visited; in the final pass a changed snapshot or an unvisited
child is a LogicError; finally count the node as to-redo unless it is
valid. -/
def validateNodeStep (env : VEnv) (isFinalValidationPass : Bool) (n : Nat) (s : VState) : VState :=
  if s.err.isSome then s else
  if ((env.info n).children.any fun c => s.visited c) || (env.info n).isLeaf then
    let data2 := vPropagatedData env isFinalValidationPass n s
    let visited1 := fun m => if m = n then true else s.visited m
    let allChildrenVisited := (env.info n).children.all fun c => s.visited c
    let unchanged := vUnchanged env isFinalValidationPass n s
    if isFinalValidationPass && !unchanged then
      { data := data2, visited := visited1, todo := s.todo,
        err := some "ValidateSubNetwork: operation changed during final validation" }
    else if isFinalValidationPass && !allChildrenVisited then
      { data := data2, visited := visited1, todo := s.todo,
        err := some "ValidateSubNetwork: operation in final validation although not all children were visited" }
    else
      let valid := (allChildrenVisited && unchanged) || (env.info n).isLeaf
      { data := data2, visited := visited1,
        todo := if valid then s.todo else s.todo + 1, err := s.err }
  else
    { s with todo := s.todo + 1 }

def validateNodesWalk (env : VEnv) (isFinal : Bool) : List Nat → VState → VState
  | [], s => s
  | n :: rest, s => validateNodesWalk env isFinal rest (validateNodeStep env isFinal n s)

/-- ComputationNetwork.ValidateNodes (lines 433-490): reset the redo
counter and walk all nodes. -/
def ValidateNodes (env : VEnv) (isFinal : Bool) (s : VState) : VState :=
  if s.err.isSome then s else validateNodesWalk env isFinal env.nodes { s with todo := 0 }

/-- Lines 374-387 of ValidateSubNetwork: reset visited, seed the
needs-gradient flags from IsParameterUpdateRequired, set the work
counter to the subnetwork size.  The non-final passes then run
ValidateNodes(false) while the counter stays positive. -/
def validateSubNetworkInit (env : VEnv) (data0 : Nat → VData) : VState :=
  { data := fun m => { data0 m with needsGradient := (env.info m).isParameterUpdateRequired }
    visited := fun _ => false
    todo := env.nodes.length
    err := none }

/-- A two-node environment on which validation never stabilises: node
0 is a leaf with identity Validate, node 1 has child 0 and a Validate
that enlarges its own dimensions on every call. -/
def envStuck : VEnv :=
  { nodes := [0, 1]
    info := fun m => if m = 0 then ⟨[], true, false⟩ else ⟨[0], false, false⟩
    validateBehavior := fun _ m d =>
      if m = 1 then
        (fun k => if k = 1 then { d 1 with dims := ((d 1).dims.1 + 1, (d 1).dims.2) } else d k)
      else d }

def vDataStuck : Nat → VData := fun _ => ⟨none, (1, 1), 0, false⟩

/-- C2 counterexample: on envStuck (subnetwork size N = 2) the
non-final passes never make progress below one remaining node, yet
after N + 1 = 3 passes no error of any kind has been raised: the code
contains no ValidationStuck check, so the while-loop of
ValidateSubNetwork would keep running forever.  This refutes the
claimed failure with ValidationStuck after at most N + 1 passes. -/
theorem C2_counterexample :
    (ValidateNodes envStuck false (ValidateNodes envStuck false (ValidateNodes envStuck false
        (validateSubNetworkInit envStuck vDataStuck)))).todo = 1
    ∧ (ValidateNodes envStuck false (ValidateNodes envStuck false (ValidateNodes envStuck false
        (validateSubNetworkInit envStuck vDataStuck)))).err = none := by
  decide

theorem validateNodeStep_todo_le (env : VEnv) (isFinal : Bool) (n : Nat) (s : VState) :
    (validateNodeStep env isFinal n s).todo ≤ s.todo + 1 := by
  unfold validateNodeStep
  split
  · omega
  · dsimp only
    repeat' split
    all_goals simp_arith

theorem validateNodesWalk_todo_le (env : VEnv) (isFinal : Bool) :
    ∀ (l : List Nat) (s : VState),
      (validateNodesWalk env isFinal l s).todo ≤ s.todo + l.length
  | [], s => by simp [validateNodesWalk]
  | n :: rest, s => by
    have h1 := validateNodeStep_todo_le env isFinal n s
    have h2 := validateNodesWalk_todo_le env isFinal rest (validateNodeStep env isFinal n s)
    simp only [validateNodesWalk, List.length_cons]
    omega

/-- Each ValidateNodes pass reports at most one redo per subnetwork
node. -/
theorem ValidateNodes_todo_le (env : VEnv) (isFinal : Bool) (s : VState) (h : s.err = none) :
    (ValidateNodes env isFinal s).todo ≤ env.nodes.length := by
  unfold ValidateNodes
  have h0 : s.err.isSome = false := by simp [h]
  rw [h0]
  simpa using validateNodesWalk_todo_le env isFinal env.nodes { s with todo := 0 }

/-- C2 amended: the validation loop of ValidateSubNetwork has no pass
bound and no ValidationStuck error; it runs ValidateNodes(false) while
work remains.  What does hold is: if every pass with remaining work
strictly decreases the remaining count (monotone progress), then some
pass among the first N + 1 reaches zero remaining work, N being the
subnetwork size, and the loop stops; without progress the loop simply
never terminates. -/
theorem C2_amended_progress_terminates (env : VEnv) (s0 : VState) (h0 : s0.err = none)
    (hprog : ∀ k : Nat, 0 < ((ValidateNodes env false)^[k + 1] s0).todo →
        ((ValidateNodes env false)^[k + 2] s0).todo
          < ((ValidateNodes env false)^[k + 1] s0).todo) :
    ∃ k : Nat, k ≤ env.nodes.length ∧ ((ValidateNodes env false)^[k + 1] s0).todo = 0 := by
  by_contra hcon
  push_neg at hcon
  have ha0 : ((ValidateNodes env false)^[0 + 1] s0).todo ≤ env.nodes.length := by
    simpa using ValidateNodes_todo_le env false s0 h0
  have key : ∀ k, k ≤ env.nodes.length →
      ((ValidateNodes env false)^[k + 1] s0).todo + k
        ≤ ((ValidateNodes env false)^[0 + 1] s0).todo := by
    intro k
    induction k with
    | zero => intro _; omega
    | succ m ih =>
      intro hk
      have hm : m ≤ env.nodes.length := Nat.le_of_succ_le hk
      have h1 := ih hm
      have h2 : 0 < ((ValidateNodes env false)^[m + 1] s0).todo :=
        Nat.pos_of_ne_zero (hcon m hm)
      have h3 := hprog m h2
      have e : m + 1 + 1 = m + 2 := rfl
      rw [e]
      omega
  have hN := key env.nodes.length le_rfl
  have hNne := hcon env.nodes.length le_rfl
  omega

/-- A one-leaf environment with identity Validate: every pass finishes
with zero remaining work. -/
def envLeaf : VEnv :=
  { nodes := [0]
    info := fun _ => ⟨[], true, false⟩
    validateBehavior := fun _ _ d => d }

def sLeaf : VState :=
  { data := fun _ => ⟨none, (1, 1), 0, false⟩
    visited := fun _ => false
    todo := 1
    err := none }

theorem envLeaf_pass (s : VState) (h : s.err = none) :
    (ValidateNodes envLeaf false s).todo = 0 ∧ (ValidateNodes envLeaf false s).err = none := by
  have h0 : s.err.isSome = false := by simp [h]
  constructor <;>
    simp [ValidateNodes, validateNodesWalk, validateNodeStep, envLeaf, h0, h]

theorem envLeaf_iter (k : Nat) :
    ((ValidateNodes envLeaf false)^[k + 1] sLeaf).todo = 0
    ∧ ((ValidateNodes envLeaf false)^[k + 1] sLeaf).err = none := by
  induction k with
  | zero => simpa using envLeaf_pass sLeaf rfl
  | succ m ih =>
    rw [Function.iterate_succ_apply']
    exact envLeaf_pass _ ih.2

theorem C2_amended_progress_terminates_witness :
    ∃ k : Nat, k ≤ envLeaf.nodes.length ∧ ((ValidateNodes envLeaf false)^[k + 1] sLeaf).todo = 0 := by
  apply C2_amended_progress_terminates envLeaf sLeaf rfl
  intro k hk
  rw [(envLeaf_iter k).1] at hk
  exact absurd hk (by omega)

/-- A one-leaf environment whose Validate(true) flips the node's own
needs-gradient flag. -/
def envNG : VEnv :=
  { nodes := [0]
    info := fun _ => ⟨[], true, false⟩
    validateBehavior := fun fin m d =>
      if fin && (m == 0) then
        (fun k => if k = 0 then { d 0 with needsGradient := true } else d k)
      else d }

def sNG : VState :=
  { data := fun _ => ⟨none, (1, 1), 0, false⟩
    visited := fun _ => true
    todo := 0
    err := none }

/-- C7 counterexample: in the final pass the needs-gradient component
is snapshot AFTER Validate(true), not before, so a Validate(true) that
itself changes the flag goes undetected: the tuple before the call
(needsGradient = false) differs from the tuple after it (true), yet
ValidateNodes(true) finishes with no NonStableValidation error.  This
refutes the claim that the snapshot of the whole tuple is taken before
Validate(true). -/
theorem C7_counterexample :
    (ValidateNodes envNG true sNG).err = none
    ∧ (sNG.data 0).needsGradient = false
    ∧ ((ValidateNodes envNG true sNG).data 0).needsGradient = true := by
  decide

/-- C7 amended: during the final pass, for every node that is
validated (a leaf, or a node with at least one visited child), if no
LogicError is raised then all its children were visited and the
code-checked tuple is stable: MBLayout, own dims, each child's dims and
image layouts are unchanged from before Validate(true), while the
needs-gradient flag is unchanged from its value just after
Validate(true) (the child or-propagation added nothing); any violation
is a fatal LogicError.  A node with at least one unvisited child that
enters validation is fatal; a non-leaf node none of whose children are
visited is instead skipped and left as remaining work. -/
theorem C7_amended_finalPassStability (env : VEnv) (n : Nat) (s : VState)
    (herr : s.err = none)
    (henter : (((env.info n).children.any fun c => s.visited c) || (env.info n).isLeaf) = true)
    (hok : (validateNodeStep env true n s).err = none) :
    (((env.info n).children.all fun c => s.visited c) = true)
    ∧ ((validateNodeStep env true n s).data n).mbLayout = (s.data n).mbLayout
    ∧ ((validateNodeStep env true n s).data n).dims = (s.data n).dims
    ∧ ((env.info n).children.map fun c => ((validateNodeStep env true n s).data c).dims)
        = ((env.info n).children.map fun c => (s.data c).dims)
    ∧ ((validateNodeStep env true n s).data n).imageLayouts = (s.data n).imageLayouts
    ∧ ((validateNodeStep env true n s).data n).needsGradient
        = (env.validateBehavior true n s.data n).needsGradient := by
  have h0 : s.err.isSome = false := by simp [herr]
  by_cases hu : vUnchanged env true n s = true
  · by_cases hall : (((env.info n).children.all fun c => s.visited c) = true)
    · have hstep : validateNodeStep env true n s =
          { data := vPropagatedData env true n s,
            visited := fun m => if m = n then true else s.visited m,
            todo := s.todo, err := s.err } := by
        simp [validateNodeStep, h0, henter, hu, hall]
      have hu2 := hu
      unfold vUnchanged at hu2
      simp only [Bool.and_eq_true, beq_iff_eq] at hu2
      obtain ⟨⟨⟨⟨e1, e2⟩, e3⟩, e4⟩, e5⟩ := hu2
      refine ⟨hall, ?_, ?_, ?_, ?_, ?_⟩ <;> rw [hstep]
      · exact e1.symm
      · exact e2.symm
      · exact e3.symm
      · exact e4.symm
      · exact e5.symm
    · exfalso
      have : (validateNodeStep env true n s).err ≠ none := by
        simp [validateNodeStep, h0, henter, hu, hall]
      exact this hok
  · exfalso
    have : (validateNodeStep env true n s).err ≠ none := by
      simp [validateNodeStep, h0, henter, hu]
    exact this hok

theorem C7_amended_finalPassStability_witness :
    (((envLeaf.info 0).children.all fun c => sLeaf.visited c) = true)
    ∧ ((validateNodeStep envLeaf true 0 sLeaf).data 0).mbLayout = (sLeaf.data 0).mbLayout
    ∧ ((validateNodeStep envLeaf true 0 sLeaf).data 0).dims = (sLeaf.data 0).dims
    ∧ (((envLeaf.info 0).children.map fun c => ((validateNodeStep envLeaf true 0 sLeaf).data c).dims)
        = ((envLeaf.info 0).children.map fun c => (sLeaf.data c).dims))
    ∧ ((validateNodeStep envLeaf true 0 sLeaf).data 0).imageLayouts = (sLeaf.data 0).imageLayouts
    ∧ ((validateNodeStep envLeaf true 0 sLeaf).data 0).needsGradient
        = (envLeaf.validateBehavior true 0 sLeaf.data 0).needsGradient :=
  C7_amended_finalPassStability envLeaf 0 sLeaf rfl (by decide) (by decide)

theorem findLoopAux_some (n : Nat) :
    ∀ (ris : List RecurrentInfo) (k i : Nat) (r : RecurrentInfo),
      findLoopAux n ris k = some (i, r) →
      k ≤ i ∧ ris[i - k]? = some r ∧ n ∈ r.recurrentNodes
  | [], k, i, r => by simp [findLoopAux]
  | r0 :: rs, k, i, r => by
    unfold findLoopAux
    split
    · rename_i hmem0
      intro h
      rw [Option.some.injEq, Prod.mk.injEq] at h
      obtain ⟨hk, hr⟩ := h
      subst hk
      subst hr
      exact ⟨le_rfl, by simp, hmem0⟩
    · intro h
      obtain ⟨hk, hget, hmem⟩ := findLoopAux_some n rs (k + 1) i r h
      refine ⟨Nat.le_of_succ_le hk, ?_, hmem⟩
      have he : i - k = (i - (k + 1)) + 1 := by omega
      rw [he, List.getElem?_cons_succ]
      exact hget

theorem findLoopAux_none (n : Nat) :
    ∀ (ris : List RecurrentInfo) (k : Nat), findLoopAux n ris k = none →
      ∀ r ∈ ris, n ∉ r.recurrentNodes
  | [], k, _ => by simp
  | r0 :: rs, k, h => by
    unfold findLoopAux at h
    split at h
    · cases h
    · intro r hr
      cases hr with
      | head => assumption
      | tail _ hr2 => exact findLoopAux_none n rs (k + 1) h r hr2

theorem FindInRecurrentLoops_some (net : Net) (n i : Nat) (r : RecurrentInfo)
    (h : FindInRecurrentLoops net n = some (i, r)) :
    net.recurrentInfo[i]? = some r ∧ n ∈ r.recurrentNodes := by
  obtain ⟨_, hget, hmem⟩ := findLoopAux_some n net.recurrentInfo 0 i r h
  exact ⟨by simpa using hget, hmem⟩

/-- Disjoint loops make FindInRecurrentLoops deterministic: a member
of the loop at position i is found exactly there. -/
theorem FindInRecurrentLoops_unique (net : Net) (hwf : WFNet net) (i : Nat) (r : RecurrentInfo)
    (hget : net.recurrentInfo[i]? = some r) (n : Nat) (hmem : n ∈ r.recurrentNodes) :
    FindInRecurrentLoops net n = some (i, r) := by
  obtain ⟨_, _, _, _, hdisj⟩ := hwf
  cases hcase : FindInRecurrentLoops net n with
  | none =>
    exact absurd hmem (findLoopAux_none n net.recurrentInfo 0 hcase r (List.getElem?_mem hget))
  | some ir =>
    obtain ⟨i2, r2⟩ := ir
    obtain ⟨hget2, hmem2⟩ := FindInRecurrentLoops_some net n i2 r2 hcase
    have hi2 : i2 < net.recurrentInfo.length := by
      cases hh : net.recurrentInfo[i2]? with
      | none => rw [hh] at hget2; cases hget2
      | some _ => exact (List.getElem?_eq_some_iff.mp hh).1
    have hi : i < net.recurrentInfo.length := by
      cases hh : net.recurrentInfo[i]? with
      | none => rw [hh] at hget; cases hget
      | some _ => exact (List.getElem?_eq_some_iff.mp hh).1
    have hr2 : net.recurrentInfo[i2] = r2 := by
      have := List.getElem?_eq_getElem hi2
      rw [this] at hget2; exact Option.some.inj hget2
    have hr : net.recurrentInfo[i] = r := by
      have := List.getElem?_eq_getElem hi
      rw [this] at hget; exact Option.some.inj hget
    have hii : i2 = i := by
      by_contra hne
      rcases Nat.lt_or_ge i2 i with hlt | hge
      · have := (List.pairwise_iff_getElem.mp hdisj) i2 i hi2 hi hlt
        rw [hr2, hr] at this
        exact this n hmem2 hmem
      · have hlt2 : i < i2 := by omega
        have := (List.pairwise_iff_getElem.mp hdisj) i i2 hi hi2 hlt2
        rw [hr2, hr] at this
        exact this n hmem hmem2
    subst hii
    have : r2 = r := by rw [← hr2, ← hr]
    subst this
    rfl

theorem getD_set_self (l : List Bool) (i : Nat) (h : i < l.length) (b : Bool) :
    (l.set i b).getD i false = b := by
  simp [List.getD_eq_getElem?_getD, List.getElem?_set_self h]

theorem getD_set_ne (l : List Bool) (i j : Nat) (h : i ≠ j) (b : Bool) :
    (l.set i b).getD j false = l.getD j false := by
  simp [List.getD_eq_getElem?_getD, List.getElem?_set, h]

theorem frameSeq_nodup (T : Nat) (dir : Int) : (frameSeq T dir).Nodup := by
  unfold frameSeq
  split
  · exact List.nodup_reverse.mpr (List.nodup_range T)
  · exact List.nodup_range T

theorem evalPairs_append (a b : List Ev) : evalPairs (a ++ b) = evalPairs a ++ evalPairs b :=
  List.filterMap_append a b evalPair

theorem gradPairs_append (a b : List Ev) : gradPairs (a ++ b) = gradPairs a ++ gradPairs b :=
  List.filterMap_append a b gradPair

/-- The pairs of one loop forward run: every member at every frame,
each exactly once when frames and members are duplicate-free. -/
theorem nodup_framePairs (F L : List Nat) (hF : F.Nodup) (hL : L.Nodup) :
    (F.flatMap (fun t => L.map (fun n2 => ((n2 : Nat), some t)))).Nodup := by
  rw [List.nodup_flatMap]
  constructor
  · intro t _
    exact hL.map (fun a b hab => (Prod.mk.injEq .. ▸ hab).1)
  · refine List.Pairwise.imp ?_ hF
    intro t1 t2 hne
    intro p hp1 hp2
    obtain ⟨a, _, ha⟩ := List.mem_map.mp hp1
    obtain ⟨b, _, hb⟩ := List.mem_map.mp hp2
    apply hne
    have := ha.trans hb.symm
    have h2 := (Prod.mk.injEq .. ▸ this).2
    exact Option.some.inj h2

theorem mem_framePairs (F L : List Nat) (p : Nat × Option Nat) :
    p ∈ F.flatMap (fun t => L.map (fun n2 => ((n2 : Nat), some t))) ↔
      ∃ t ∈ F, ∃ n2 ∈ L, p = (n2, some t) := by
  simp only [List.mem_flatMap, List.mem_map]
  constructor
  · rintro ⟨t, ht, n2, hn2, hp⟩
    exact ⟨t, ht, n2, hn2, hp.symm⟩
  · rintro ⟨t, ht, n2, hn2, hp⟩
    exact ⟨t, ht, n2, hn2, hp.symm⟩

theorem evalLoopPrep_state (net : Net) (p : Option Nat) :
    ∀ (l : List Nat) (s : NState),
      evalPairs (evalLoopPrep net p l s).trace = evalPairs s.trace
      ∧ gradPairs (evalLoopPrep net p l s).trace = gradPairs s.trace
      ∧ (evalLoopPrep net p l s).completedEvaluate = s.completedEvaluate
      ∧ (evalLoopPrep net p l s).completedGradient = s.completedGradient
  | [], _ => ⟨rfl, rfl, rfl, rfl⟩
  | n2 :: rest, s => by
    unfold evalLoopPrep
    split
    · exact ⟨rfl, rfl, rfl, rfl⟩
    · have ih := evalLoopPrep_state net p rest
        (emits [Ev.updateFunctionMBSize n2, Ev.onEvaluateBeginIteration n2] s)
      refine ⟨?_, ?_, ih.2.2.1, ih.2.2.2⟩
      · rw [ih.1]; simp [emits, evalPairs, evalPair, List.filterMap_append]
      · rw [ih.2.1]; simp [emits, gradPairs, gradPair, List.filterMap_append]

theorem evalFrameStepNode_state (net : Net) (t n2 : Nat) (s : NState) :
    (evalFrameStepNode net t n2 s).completedEvaluate = s.completedEvaluate
    ∧ (evalFrameStepNode net t n2 s).completedGradient = s.completedGradient := by
  by_cases h : net.reqMultiSeq n2 = true <;>
    simp [evalFrameStepNode, emit, updateEvalTimeStampS, h]

theorem evalFrameNodes_state (net : Net) (t : Nat) :
    ∀ (nodes : List Nat) (s : NState),
      (evalFrameNodes net t nodes s).completedEvaluate = s.completedEvaluate
      ∧ (evalFrameNodes net t nodes s).completedGradient = s.completedGradient
  | [], _ => ⟨rfl, rfl⟩
  | n2 :: rest, s => by
    have ih := evalFrameNodes_state net t rest (evalFrameStepNode net t n2 s)
    have h := evalFrameStepNode_state net t n2 s
    exact ⟨ih.1.trans h.1, ih.2.trans h.2⟩

theorem evalFrames_state (net : Net) (nodes : List Nat) :
    ∀ (frames : List Nat) (s : NState),
      (evalFrames net nodes frames s).completedEvaluate = s.completedEvaluate
      ∧ (evalFrames net nodes frames s).completedGradient = s.completedGradient
  | [], _ => ⟨rfl, rfl⟩
  | t :: rest, s => by
    have ih := evalFrames_state net nodes rest (evalFrameNodes net t nodes s)
    have h := evalFrameNodes_state net t nodes s
    exact ⟨ih.1.trans h.1, ih.2.trans h.2⟩

theorem evalPairs_validates (l : List Nat) :
    evalPairs (l.map (fun n2 => Ev.validateCall n2 true)) = [] := by
  rw [evalPairs, List.filterMap_eq_nil_iff]
  intro a ha
  obtain ⟨n2, _, hn⟩ := List.mem_map.mp ha
  subst hn; rfl

theorem evalPairs_endIters (l : List Nat) :
    evalPairs (l.map Ev.onEvaluateEndIteration) = [] := by
  rw [evalPairs, List.filterMap_eq_nil_iff]
  intro a ha
  obtain ⟨n2, _, hn⟩ := List.mem_map.mp ha
  subst hn; rfl

theorem gradPairs_validates (l : List Nat) :
    gradPairs (l.map (fun n2 => Ev.validateCall n2 true)) = [] := by
  rw [gradPairs, List.filterMap_eq_nil_iff]
  intro a ha
  obtain ⟨n2, _, hn⟩ := List.mem_map.mp ha
  subst hn; rfl

theorem gradPairs_endIters (l : List Nat) :
    gradPairs (l.map Ev.onEvaluateEndIteration) = [] := by
  rw [gradPairs, List.filterMap_eq_nil_iff]
  intro a ha
  obtain ⟨n2, _, hn⟩ := List.mem_map.mp ha
  subst hn; rfl

theorem gradPairs_evalFrameEvents (net : Net) (t : Nat) :
    ∀ nodes : List Nat, gradPairs (evalFrameEvents net t nodes) = []
  | [] => rfl
  | n2 :: rest => by
    rw [show evalFrameEvents net t (n2 :: rest) =
        (Ev.evaluateThisNode n2 (some t) ::
          ((if net.reqMultiSeq n2 then [Ev.maskMissingValuesColumnsToZero n2 (some t)] else []) ++
            [Ev.updateEvalTimeStamp n2])) ++ evalFrameEvents net t rest from rfl]
    rw [gradPairs_append, gradPairs_evalFrameEvents net t rest]
    by_cases h : net.reqMultiSeq n2 = true <;> simp [gradPairs, gradPair, h]

/-- The tail of a successful forward loop run (validate calls, frame
loop, end-iteration calls): its pair projections and loop-flag
preservation. -/
theorem evalLoopTail_state (net : Net) (L frames : List Nat) (s1 : NState) :
    evalPairs ((emits (L.map Ev.onEvaluateEndIteration)
        (evalFrames net L frames (emits (L.map (fun n2 => Ev.validateCall n2 true)) s1))).trace)
      = evalPairs s1.trace ++ frames.flatMap (fun t => L.map (fun n2 => ((n2 : Nat), some t)))
    ∧ gradPairs ((emits (L.map Ev.onEvaluateEndIteration)
        (evalFrames net L frames (emits (L.map (fun n2 => Ev.validateCall n2 true)) s1))).trace)
      = gradPairs s1.trace
    ∧ (emits (L.map Ev.onEvaluateEndIteration)
        (evalFrames net L frames (emits (L.map (fun n2 => Ev.validateCall n2 true)) s1))).completedEvaluate
      = s1.completedEvaluate
    ∧ (emits (L.map Ev.onEvaluateEndIteration)
        (evalFrames net L frames (emits (L.map (fun n2 => Ev.validateCall n2 true)) s1))).completedGradient
      = s1.completedGradient := by
  have htr : (emits (L.map Ev.onEvaluateEndIteration)
      (evalFrames net L frames (emits (L.map (fun n2 => Ev.validateCall n2 true)) s1))).trace
      = s1.trace ++ L.map (fun n2 => Ev.validateCall n2 true)
        ++ frames.flatMap (fun t => evalFrameEvents net t L)
        ++ L.map Ev.onEvaluateEndIteration := by
    show (evalFrames net L frames (emits (L.map (fun n2 => Ev.validateCall n2 true)) s1)).trace
        ++ L.map Ev.onEvaluateEndIteration = _
    rw [evalFrames_trace]
    show s1.trace ++ L.map (fun n2 => Ev.validateCall n2 true)
        ++ frames.flatMap (fun t => evalFrameEvents net t L)
        ++ L.map Ev.onEvaluateEndIteration = _
    rfl
  have hfl := evalFrames_state net L frames (emits (L.map (fun n2 => Ev.validateCall n2 true)) s1)
  refine ⟨?_, ?_, hfl.1, hfl.2⟩
  · rw [htr, evalPairs_append, evalPairs_append, evalPairs_append,
        evalPairs_validates, evalPairs_endIters]
    rw [show evalPairs (frames.flatMap (fun t => evalFrameEvents net t L))
        = frames.flatMap (fun t => L.map (fun n2 => ((n2 : Nat), some t))) by
      rw [evalPairs, List.filterMap_flatMap]
      simp only [filterMap_evalPair_evalFrameEvents]]
    simp
  · rw [htr, gradPairs_append, gradPairs_append, gradPairs_append,
        gradPairs_validates, gradPairs_endIters]
    rw [show gradPairs (frames.flatMap (fun t => evalFrameEvents net t L)) = [] by
      rw [gradPairs, List.filterMap_eq_nil_iff]
      intro a ha
      obtain ⟨x, _, hax⟩ := List.mem_flatMap.mp ha
      have h2 := gradPairs_evalFrameEvents net x L
      rw [gradPairs, List.filterMap_eq_nil_iff] at h2
      exact h2 a hax]
    simp

/-- A forward loop run either aborts (layout mismatch or empty loop)
without evaluating anything and without touching the flags, or runs to
completion, adding exactly one EvaluateThisNode pair per (frame,
member) and setting the loop's m_completedEvaluate flag; it never adds
gradient pairs and never touches m_completedGradient. -/
theorem evalLoopBody_cases (net : Net) (i : Nat) (r : RecurrentInfo) (s : NState) :
    ((evalPairs (evalLoopBody net i r s).trace = evalPairs s.trace
        ∧ (evalLoopBody net i r s).completedEvaluate = s.completedEvaluate)
      ∨ (∃ F : List Nat, F.Nodup
          ∧ evalPairs (evalLoopBody net i r s).trace
              = evalPairs s.trace
                ++ F.flatMap (fun t => r.recurrentNodesForForward.map (fun n2 => ((n2 : Nat), some t)))
          ∧ (evalLoopBody net i r s).completedEvaluate = s.completedEvaluate.set i true))
    ∧ gradPairs (evalLoopBody net i r s).trace = gradPairs s.trace
    ∧ (evalLoopBody net i r s).completedGradient = s.completedGradient := by
  unfold evalLoopBody
  cases hL : r.recurrentNodesForForward with
  | nil => exact ⟨Or.inl ⟨rfl, rfl⟩, rfl, rfl⟩
  | cons n0 ns =>
    dsimp only
    split
    · have hp := evalLoopPrep_state net (net.nodeLayout n0) (n0 :: ns) s
      exact ⟨Or.inl ⟨hp.1, hp.2.2.1⟩, hp.2.1, hp.2.2.2⟩
    · have hp := evalLoopPrep_state net (net.nodeLayout n0) (n0 :: ns) s
      have ht := evalLoopTail_state net (n0 :: ns)
        (frameSeq (net.layoutT (net.nodeLayout n0)) r.steppingDirection)
        (evalLoopPrep net (net.nodeLayout n0) (n0 :: ns) s)
      refine ⟨Or.inr ⟨frameSeq (net.layoutT (net.nodeLayout n0)) r.steppingDirection,
        frameSeq_nodup _ _, ?_, ?_⟩, ?_, ?_⟩
      · exact ht.1.trans (by rw [hp.1])
      · exact congrArg (fun l => l.set i true) (ht.2.2.1.trans hp.2.2.1)
      · exact ht.2.1.trans hp.2.1
      · exact ht.2.2.2.trans hp.2.2.2

theorem wholeBatchEval_state (net : Net) (n : Nat) (s : NState) :
    evalPairs (wholeBatchEval net n s).trace = evalPairs s.trace ++ [((n : Nat), (none : Option Nat))]
    ∧ gradPairs (wholeBatchEval net n s).trace = gradPairs s.trace
    ∧ (wholeBatchEval net n s).completedEvaluate = s.completedEvaluate
    ∧ (wholeBatchEval net n s).completedGradient = s.completedGradient := by
  by_cases h1 : (!net.isLeaf n && !net.requiresPreCompute n) = true <;>
    by_cases h2 : net.reqMultiSeq n = true <;>
      refine ⟨?_, ?_, ?_, ?_⟩ <;>
        simp [wholeBatchEval, emit, updateEvalTimeStampS, evalPairs, gradPairs, evalPair,
              gradPair, h1, h2, List.filterMap_append]

/-- The invariant carried along the Evaluate walk: the EvaluateThisNode
pairs recorded so far are duplicate-free; a whole-batch pair belongs to
a non-loop node already walked; a frame pair belongs to a loop whose
m_completedEvaluate flag is set. -/
def InvE (net : Net) (rest : List Nat) (s : NState) : Prop :=
  (evalPairs s.trace).Nodup
  ∧ (∀ n : Nat, ((n, (none : Option Nat)) ∈ evalPairs s.trace) →
      FindInRecurrentLoops net n = none ∧ n ∉ rest)
  ∧ (∀ (n t : Nat), ((n, some t) ∈ evalPairs s.trace) →
      ∃ i r, FindInRecurrentLoops net n = some (i, r) ∧ s.completedEvaluate.getD i false = true)
  ∧ s.completedEvaluate.length = net.recurrentInfo.length

theorem InvE_mono (net : Net) (n : Nat) (rest : List Nat) (s : NState)
    (h : InvE net (n :: rest) s) : InvE net rest s :=
  ⟨h.1, fun m hm => ⟨(h.2.1 m hm).1, fun hr => (h.2.1 m hm).2 (List.mem_cons_of_mem _ hr)⟩,
   h.2.2.1, h.2.2.2⟩

theorem InvE_congr (net : Net) (rest : List Nat) (s s2 : NState)
    (hp : evalPairs s2.trace = evalPairs s.trace)
    (hf : s2.completedEvaluate = s.completedEvaluate)
    (h : InvE net rest s) : InvE net rest s2 := by
  refine ⟨?_, ?_, ?_, ?_⟩
  · rw [hp]; exact h.1
  · intro m hm; rw [hp] at hm; exact h.2.1 m hm
  · intro m t hm; rw [hp] at hm; rw [hf]; exact h.2.2.1 m t hm
  · rw [hf]; exact h.2.2.2

theorem count_le_one_of_nodup {l : List (Nat × Option Nat)} (h : l.Nodup) (p : Nat × Option Nat) :
    l.count p ≤ 1 := by
  induction l with
  | nil => simp
  | cons a l ih =>
    obtain ⟨ha, hl⟩ := List.nodup_cons.mp h
    rw [List.count_cons]
    by_cases hpa : p = a
    · subst hpa
      rw [List.count_eq_zero.mpr ha]
      simp
    · have hba : (a == p) = false := by
        simp only [beq_eq_false_iff_ne, ne_eq]
        exact fun e => hpa e.symm
      rw [hba]
      simpa using ih hl

theorem evalStep_inv (net : Net) (hwf : WFNet net) (n : Nat) (rest : List Nat) (s : NState)
    (hnotin : n ∉ rest) (hInv : InvE net (n :: rest) s) :
    InvE net rest (evalStep net n s) := by
  have hmono := InvE_mono net n rest s hInv
  unfold evalStep
  split
  · exact hmono
  cases hfind : FindInRecurrentLoops net n with
  | none =>
    dsimp only
    split
    · -- whole-batch evaluation adds the pair (n, none)
      have hw := wholeBatchEval_state net n s
      obtain ⟨hnd, hwb, hloop, hlen⟩ := hInv
      refine ⟨?_, ?_, ?_, ?_⟩
      · rw [hw.1]
        refine List.Nodup.append hnd (by simp) ?_
        intro p hp1 hp2
        simp only [List.mem_singleton] at hp2
        subst hp2
        exact (hwb n hp1).2 (List.mem_cons_self n rest)
      · intro m hm
        rw [hw.1] at hm
        rcases List.mem_append.mp hm with hold | hnew
        · exact ⟨(hwb m hold).1, fun hr => (hwb m hold).2 (List.mem_cons_of_mem _ hr)⟩
        · simp only [List.mem_singleton, Prod.mk.injEq] at hnew
          rw [hnew.1]
          exact ⟨hfind, hnotin⟩
      · intro m t hm
        rw [hw.1] at hm
        rcases List.mem_append.mp hm with hold | hnew
        · obtain ⟨i2, r2, h1, h2⟩ := hloop m t hold
          exact ⟨i2, r2, h1, by rw [hw.2.2.1]; exact h2⟩
        · simp at hnew
      · rw [hw.2.2.1]; exact hlen
    · exact InvE_congr net rest s (emit (Ev.onEvaluateEndIteration n) s)
        (by simp [emit, evalPairs, evalPair, List.filterMap_append]) rfl hmono
  | some ir =>
    obtain ⟨i, r⟩ := ir
    dsimp only
    split
    · -- the loop runs
      rename_i hguard
      rw [Bool.and_eq_true] at hguard
      have hflag : s.completedEvaluate.getD i false = false := by
        simpa using hguard.2
      obtain ⟨hget, hmemr⟩ := FindInRecurrentLoops_some net n i r hfind
      have hilt : i < net.recurrentInfo.length := (List.getElem?_eq_some_iff.mp hget).1
      obtain ⟨hnd, hwb, hloop, hlen⟩ := hInv
      have hilt2 : i < s.completedEvaluate.length := by rw [hlen]; exact hilt
      rcases (evalLoopBody_cases net i r s).1 with ⟨hp, hf⟩ | ⟨F, hF, hp, hf⟩
      · exact InvE_congr net rest s (evalLoopBody net i r s) hp hf hmono
      · have hrmem : r ∈ net.recurrentInfo := List.getElem?_mem hget
        have hLnodup : r.recurrentNodesForForward.Nodup := hwf.2.1 r hrmem
        refine ⟨?_, ?_, ?_, ?_⟩
        · rw [hp]
          refine List.Nodup.append hnd (nodup_framePairs F _ hF hLnodup) ?_
          intro p hp1 hp2
          rw [mem_framePairs] at hp2
          obtain ⟨t, _, n2, hn2, hpe⟩ := hp2
          subst hpe
          obtain ⟨i2, r2, hf2, hflag2⟩ := hloop n2 t hp1
          have hn2r : n2 ∈ r.recurrentNodes := hwf.2.2.1 r hrmem n2 hn2
          have hu : FindInRecurrentLoops net n2 = some (i, r) :=
            FindInRecurrentLoops_unique net hwf i r hget n2 hn2r
          rw [hu, Option.some.injEq, Prod.mk.injEq] at hf2
          rw [← hf2.1] at hflag2
          rw [hflag] at hflag2
          cases hflag2
        · intro m hm
          rw [hp] at hm
          rcases List.mem_append.mp hm with hold | hnew
          · exact ⟨(hwb m hold).1, fun hr => (hwb m hold).2 (List.mem_cons_of_mem _ hr)⟩
          · rw [mem_framePairs] at hnew
            obtain ⟨t, _, n2, _, hpe⟩ := hnew
            simp at hpe
        · intro m t hm
          rw [hp] at hm
          rw [hf]
          rcases List.mem_append.mp hm with hold | hnew
          · obtain ⟨i2, r2, h1, h2⟩ := hloop m t hold
            refine ⟨i2, r2, h1, ?_⟩
            by_cases hii : i = i2
            · subst hii; rw [getD_set_self _ _ hilt2]
            · rw [getD_set_ne _ _ _ hii]; exact h2
          · rw [mem_framePairs] at hnew
            obtain ⟨t2, _, n2, hn2, hpe⟩ := hnew
            rw [Prod.mk.injEq] at hpe
            rw [hpe.1]
            have hmr : n2 ∈ r.recurrentNodes := hwf.2.2.1 r hrmem n2 hn2
            refine ⟨i, r, FindInRecurrentLoops_unique net hwf i r hget n2 hmr, ?_⟩
            rw [getD_set_self _ _ hilt2]
        · rw [hf, List.length_set]; exact hlen
    · exact InvE_congr net rest s (emit (Ev.onEvaluateEndIteration n) s)
        (by simp [emit, evalPairs, evalPair, List.filterMap_append]) rfl hmono

theorem evalWalk_inv (net : Net) (hwf : WFNet net) :
    ∀ (l : List Nat) (s : NState), l.Nodup → InvE net l s → InvE net [] (evalWalk net l s)
  | [], _, _, h => h
  | n :: rest, s, hnd, h => by
    have hn : n ∉ rest := (List.nodup_cons.mp hnd).1
    have hr : rest.Nodup := (List.nodup_cons.mp hnd).2
    exact evalWalk_inv net hwf rest (evalStep net n s) hr (evalStep_inv net hwf n rest s hn h)

/-- C3: within a single Evaluate call no node is evaluated more than
once per frame range it covers (each (node, frame) EvaluateThisNode
pair occurs at most once, whole-batch included), and a member of a
recurrent loop is never evaluated on the whole-batch path: it is
evaluated exactly by its loop's frame iteration, which runs at most
once because m_completedEvaluate is reset at the start of the call and
set when the loop completes. -/
theorem C3_evaluate_once (net : Net) (s : NState) (hwf : WFNet net) (htrace : s.trace = []) :
    (∀ p : Nat × Option Nat, (evalPairs (Evaluate net s).trace).count p ≤ 1)
    ∧ (∀ (n i : Nat) (r : RecurrentInfo), FindInRecurrentLoops net n = some (i, r) →
        ((n, (none : Option Nat)) ∉ evalPairs (Evaluate net s).trace)) := by
  unfold Evaluate
  split
  · constructor
    · intro p; simp [htrace, evalPairs]
    · intro m i r _; simp [htrace, evalPairs]
  · have hInv0 : InvE net net.evalOrder
        { s with completedEvaluate := List.replicate net.recurrentInfo.length false } := by
      refine ⟨?_, ?_, ?_, ?_⟩ <;> simp [htrace, evalPairs]
    have hfin := evalWalk_inv net hwf net.evalOrder _ hwf.1 hInv0
    constructor
    · intro p
      exact count_le_one_of_nodup hfin.1 p
    · intro m i r hf hmem
      have h2 := (hfin.2.1 m hmem).1
      rw [hf] at h2
      cases h2

/-- A concrete well-formed network: node 1 forms a one-node loop over
a two-frame layout and is stale (its child 4 has a newer timestamp),
node 2 depends on node 1. -/
def netC3 : Net :=
  { recurrentInfo := [⟨[1], [1], 1⟩]
    evalOrder := [1, 2]
    built := true
    nodeLayout := fun _ => some 0
    layoutT := fun _ => 2
    children := fun m => if m = 1 then [4] else if m = 2 then [1] else []
    opName := fun _ => "Times"
    reqMultiSeq := fun _ => false
    isPartOfLoop := fun m => m == 1
    isLeaf := fun _ => false
    requiresPreCompute := fun _ => false }

def sC3 : NState := { sInit with timestamp := fun m => if m = 4 then 5 else 0 }

theorem C3_evaluate_once_witness :
    (evalPairs (Evaluate netC3 sC3).trace).count (1, some 0) ≤ 1
    ∧ ((1, (none : Option Nat)) ∉ evalPairs (Evaluate netC3 sC3).trace) :=
  ⟨(C3_evaluate_once netC3 sC3 (by unfold WFNet; decide) rfl).1 (1, some 0),
   (C3_evaluate_once netC3 sC3 (by unfold WFNet; decide) rfl).2 1 0 ⟨[1], [1], 1⟩ (by decide)⟩

theorem gradPairs_beginGradIters (l : List Nat) :
    gradPairs (l.map Ev.onComputeGradientBeginIteration) = [] := by
  rw [gradPairs, List.filterMap_eq_nil_iff]
  intro a ha
  obtain ⟨n2, _, hn⟩ := List.mem_map.mp ha
  subst hn; rfl

theorem gradPairs_endGradIters (l : List Nat) :
    gradPairs (l.map Ev.onComputeGradientEndIteration) = [] := by
  rw [gradPairs, List.filterMap_eq_nil_iff]
  intro a ha
  obtain ⟨n2, _, hn⟩ := List.mem_map.mp ha
  subst hn; rfl

/-- A backward loop run either aborts on an empty loop or runs to
completion, adding exactly one ComputeGradientForChildren pair per
(frame, member) and setting the loop's m_completedGradient flag. -/
theorem gradLoopBody_cases (net : Net) (i : Nat) (r : RecurrentInfo) (s : NState) :
    (gradPairs (gradLoopBody net i r s).trace = gradPairs s.trace
      ∧ (gradLoopBody net i r s).completedGradient = s.completedGradient)
    ∨ (∃ F : List Nat, F.Nodup
        ∧ gradPairs (gradLoopBody net i r s).trace
            = gradPairs s.trace
              ++ F.flatMap (fun t =>
                  r.recurrentNodesForForward.reverse.map (fun n2 => ((n2 : Nat), some t)))
        ∧ (gradLoopBody net i r s).completedGradient = s.completedGradient.set i true) := by
  unfold gradLoopBody
  cases hL : r.recurrentNodesForForward with
  | nil =>
    left
    constructor
    · show gradPairs (s.trace ++ List.map Ev.onComputeGradientBeginIteration []) = gradPairs s.trace
      simp
    · rfl
  | cons n0 ns =>
    dsimp only
    right
    refine ⟨(frameSeq (net.layoutT (net.nodeLayout n0)) r.steppingDirection).reverse,
      List.nodup_reverse.mpr (frameSeq_nodup _ _), ?_, ?_⟩
    · show gradPairs (((s.trace ++ (n0 :: ns).map Ev.onComputeGradientBeginIteration)
          ++ (frameSeq (net.layoutT (net.nodeLayout n0)) r.steppingDirection).reverse.flatMap
              (fun t => gradFrameEvents net t (n0 :: ns).reverse))
          ++ (n0 :: ns).map Ev.onComputeGradientEndIteration) = _
      rw [gradPairs_append, gradPairs_append, gradPairs_append,
          gradPairs_beginGradIters, gradPairs_endGradIters]
      rw [show gradPairs
            ((frameSeq (net.layoutT (net.nodeLayout n0)) r.steppingDirection).reverse.flatMap
              (fun t => gradFrameEvents net t (n0 :: ns).reverse))
          = (frameSeq (net.layoutT (net.nodeLayout n0)) r.steppingDirection).reverse.flatMap
              (fun t => (n0 :: ns).reverse.map (fun n2 => ((n2 : Nat), some t))) by
        rw [gradPairs, List.filterMap_flatMap]
        simp only [filterMap_gradPair_gradFrameEvents]]
      simp
    · rfl

/-- The invariant carried along the ComputeGradient walk, mirroring
the forward one. -/
def InvG (net : Net) (rest : List Nat) (s : NState) : Prop :=
  (gradPairs s.trace).Nodup
  ∧ (∀ n : Nat, ((n, (none : Option Nat)) ∈ gradPairs s.trace) →
      FindInRecurrentLoops net n = none ∧ n ∉ rest)
  ∧ (∀ (n t : Nat), ((n, some t) ∈ gradPairs s.trace) →
      ∃ i r, FindInRecurrentLoops net n = some (i, r) ∧ s.completedGradient.getD i false = true)
  ∧ s.completedGradient.length = net.recurrentInfo.length

theorem InvG_mono (net : Net) (n : Nat) (rest : List Nat) (s : NState)
    (h : InvG net (n :: rest) s) : InvG net rest s :=
  ⟨h.1, fun m hm => ⟨(h.2.1 m hm).1, fun hr => (h.2.1 m hm).2 (List.mem_cons_of_mem _ hr)⟩,
   h.2.2.1, h.2.2.2⟩

theorem InvG_congr (net : Net) (rest : List Nat) (s s2 : NState)
    (hp : gradPairs s2.trace = gradPairs s.trace)
    (hf : s2.completedGradient = s.completedGradient)
    (h : InvG net rest s) : InvG net rest s2 := by
  refine ⟨?_, ?_, ?_, ?_⟩
  · rw [hp]; exact h.1
  · intro m hm; rw [hp] at hm; exact h.2.1 m hm
  · intro m t hm; rw [hp] at hm; rw [hf]; exact h.2.2.1 m t hm
  · rw [hf]; exact h.2.2.2

theorem InvG_addWB (net : Net) (n : Nat) (rest : List Nat) (s s2 : NState)
    (hfind : FindInRecurrentLoops net n = none) (hnotin : n ∉ rest)
    (hp : gradPairs s2.trace = gradPairs s.trace ++ [((n : Nat), (none : Option Nat))])
    (hf : s2.completedGradient = s.completedGradient)
    (hInv : InvG net (n :: rest) s) : InvG net rest s2 := by
  obtain ⟨hnd, hwb, hloop, hlen⟩ := hInv
  refine ⟨?_, ?_, ?_, ?_⟩
  · rw [hp]
    refine List.Nodup.append hnd (by simp) ?_
    intro p hp1 hp2
    simp only [List.mem_singleton] at hp2
    subst hp2
    exact (hwb n hp1).2 (List.mem_cons_self n rest)
  · intro m hm
    rw [hp] at hm
    rcases List.mem_append.mp hm with hold | hnew
    · exact ⟨(hwb m hold).1, fun hr => (hwb m hold).2 (List.mem_cons_of_mem _ hr)⟩
    · simp only [List.mem_singleton, Prod.mk.injEq] at hnew
      rw [hnew.1]
      exact ⟨hfind, hnotin⟩
  · intro m t hm
    rw [hp] at hm
    rcases List.mem_append.mp hm with hold | hnew
    · obtain ⟨i2, r2, h1, h2⟩ := hloop m t hold
      exact ⟨i2, r2, h1, by rw [hf]; exact h2⟩
    · simp at hnew
  · rw [hf]; exact hlen

theorem gradStep_inv (net : Net) (hwf : WFNet net) (n : Nat) (rest : List Nat) (s : NState)
    (hnotin : n ∉ rest) (hInv : InvG net (n :: rest) s) :
    InvG net rest (gradStep net n s) := by
  have hmono := InvG_mono net n rest s hInv
  unfold gradStep
  split
  · exact hmono
  cases hfind : FindInRecurrentLoops net n with
  | some ir =>
    obtain ⟨i, r⟩ := ir
    dsimp only
    split
    · rename_i hflagT
      have hflag : s.completedGradient.getD i false = false := by simpa using hflagT
      obtain ⟨hget, _⟩ := FindInRecurrentLoops_some net n i r hfind
      have hilt : i < net.recurrentInfo.length := (List.getElem?_eq_some_iff.mp hget).1
      obtain ⟨hnd, hwb, hloop, hlen⟩ := hInv
      have hilt2 : i < s.completedGradient.length := by rw [hlen]; exact hilt
      rcases gradLoopBody_cases net i r s with ⟨hp, hf⟩ | ⟨F, hF, hp, hf⟩
      · exact InvG_congr net rest s (gradLoopBody net i r s) hp hf hmono
      · have hrmem : r ∈ net.recurrentInfo := List.getElem?_mem hget
        have hLnodup : r.recurrentNodesForForward.reverse.Nodup :=
          List.nodup_reverse.mpr (hwf.2.1 r hrmem)
        refine ⟨?_, ?_, ?_, ?_⟩
        · rw [hp]
          refine List.Nodup.append hnd (nodup_framePairs F _ hF hLnodup) ?_
          intro p hp1 hp2
          rw [mem_framePairs] at hp2
          obtain ⟨t, _, n2, hn2, hpe⟩ := hp2
          subst hpe
          obtain ⟨i2, r2, hf2, hflag2⟩ := hloop n2 t hp1
          have hn2r : n2 ∈ r.recurrentNodes :=
            hwf.2.2.1 r hrmem n2 (List.mem_reverse.mp hn2)
          have hu : FindInRecurrentLoops net n2 = some (i, r) :=
            FindInRecurrentLoops_unique net hwf i r hget n2 hn2r
          rw [hu, Option.some.injEq, Prod.mk.injEq] at hf2
          rw [← hf2.1] at hflag2
          rw [hflag] at hflag2
          cases hflag2
        · intro m hm
          rw [hp] at hm
          rcases List.mem_append.mp hm with hold | hnew
          · exact ⟨(hwb m hold).1, fun hr => (hwb m hold).2 (List.mem_cons_of_mem _ hr)⟩
          · rw [mem_framePairs] at hnew
            obtain ⟨t, _, n2, _, hpe⟩ := hnew
            simp at hpe
        · intro m t hm
          rw [hp] at hm
          rw [hf]
          rcases List.mem_append.mp hm with hold | hnew
          · obtain ⟨i2, r2, h1, h2⟩ := hloop m t hold
            refine ⟨i2, r2, h1, ?_⟩
            by_cases hii : i = i2
            · subst hii; rw [getD_set_self _ _ hilt2]
            · rw [getD_set_ne _ _ _ hii]; exact h2
          · rw [mem_framePairs] at hnew
            obtain ⟨t2, _, n2, hn2, hpe⟩ := hnew
            rw [Prod.mk.injEq] at hpe
            rw [hpe.1]
            have hmr : n2 ∈ r.recurrentNodes :=
              hwf.2.2.1 r hrmem n2 (List.mem_reverse.mp hn2)
            refine ⟨i, r, FindInRecurrentLoops_unique net hwf i r hget n2 hmr, ?_⟩
            rw [getD_set_self _ _ hilt2]
        · rw [hf, List.length_set]; exact hlen
    · exact hmono
  | none =>
    dsimp only
    by_cases h1 : net.reqMultiSeq n = true
    · by_cases h2 : net.isPartOfLoop n = true
      · refine InvG_congr net rest s _ ?_ ?_ hmono <;>
          simp [h1, h2, emit, emits, gradPairs, gradPair, List.filterMap_append]
      · refine InvG_addWB net n rest s _ hfind hnotin ?_ ?_ hInv <;>
          simp [h1, h2, emit, emits, gradPairs, gradPair, List.filterMap_append]
    · refine InvG_addWB net n rest s _ hfind hnotin ?_ ?_ hInv <;>
        simp [h1, emit, emits, gradPairs, gradPair, List.filterMap_append]

theorem gradWalk_inv (net : Net) (hwf : WFNet net) :
    ∀ (l : List Nat) (s : NState), l.Nodup → InvG net l s → InvG net [] (gradWalk net l s)
  | [], _, _, h => h
  | n :: rest, s, hnd, h => by
    have hn : n ∉ rest := (List.nodup_cons.mp hnd).1
    have hr : rest.Nodup := (List.nodup_cons.mp hnd).2
    exact gradWalk_inv net hwf rest (gradStep net n s) hr (gradStep_inv net hwf n rest s hn h)

theorem evalStep_gstate (net : Net) (n : Nat) (s : NState) :
    gradPairs (evalStep net n s).trace = gradPairs s.trace
    ∧ (evalStep net n s).completedGradient = s.completedGradient := by
  unfold evalStep
  split
  · exact ⟨rfl, rfl⟩
  cases hfind : FindInRecurrentLoops net n with
  | none =>
    dsimp only
    split
    · have hw := wholeBatchEval_state net n s
      exact ⟨hw.2.1, hw.2.2.2⟩
    · exact ⟨by simp [emit, gradPairs, gradPair, List.filterMap_append], rfl⟩
  | some ir =>
    obtain ⟨i, r⟩ := ir
    dsimp only
    split
    · have hb := evalLoopBody_cases net i r s
      exact ⟨hb.2.1, hb.2.2⟩
    · exact ⟨by simp [emit, gradPairs, gradPair, List.filterMap_append], rfl⟩

theorem evalWalk_gstate (net : Net) :
    ∀ (l : List Nat) (s : NState),
      gradPairs (evalWalk net l s).trace = gradPairs s.trace
      ∧ (evalWalk net l s).completedGradient = s.completedGradient
  | [], _ => ⟨rfl, rfl⟩
  | n :: rest, s => by
    have ih := evalWalk_gstate net rest (evalStep net n s)
    have h := evalStep_gstate net n s
    exact ⟨ih.1.trans h.1, ih.2.trans h.2⟩

/-- The forward pass records no gradient pairs and leaves the
m_completedGradient flags alone. -/
theorem Evaluate_gstate (net : Net) (s : NState) :
    gradPairs (Evaluate net s).trace = gradPairs s.trace
    ∧ (Evaluate net s).completedGradient = s.completedGradient := by
  unfold Evaluate
  split
  · exact ⟨rfl, rfl⟩
  · exact evalWalk_gstate net net.evalOrder _

theorem getD_set_true_mono (l : List Bool) (j i : Nat) (h : l.getD i false = true) :
    (l.set j true).getD i false = true := by
  by_cases hji : j = i
  · subst hji
    by_cases hlt : j < l.length
    · rw [getD_set_self _ _ hlt]
    · rw [List.set_eq_of_length_le (by omega)]
      exact h
  · rw [getD_set_ne _ _ _ hji]
    exact h

/-- The backward walk never clears a m_completedGradient flag. -/
theorem gradStep_flag_mono (net : Net) (n : Nat) (s : NState) (i : Nat)
    (h : s.completedGradient.getD i false = true) :
    (gradStep net n s).completedGradient.getD i false = true := by
  unfold gradStep
  split
  · exact h
  cases hfind : FindInRecurrentLoops net n with
  | some ir =>
    obtain ⟨i2, r⟩ := ir
    dsimp only
    split
    · rcases gradLoopBody_cases net i2 r s with ⟨_, hf⟩ | ⟨F, _, _, hf⟩
      · rw [hf]; exact h
      · rw [hf]; exact getD_set_true_mono _ _ _ h
    · exact h
  | none =>
    dsimp only
    split
    · split
      · exact h
      · exact h
    · exact h

theorem gradWalk_flag_mono (net : Net) :
    ∀ (l : List Nat) (s : NState) (i : Nat),
      s.completedGradient.getD i false = true →
      (gradWalk net l s).completedGradient.getD i false = true
  | [], _, _, h => h
  | n :: rest, s, i, h =>
    gradWalk_flag_mono net rest (gradStep net n s) i (gradStep_flag_mono net n s i h)

/-- C1 amended: ComputeGradient contains no reset of the
m_completedGradient flags.  What holds instead: within one call each
(node, frame) ComputeGradientForChildren pair occurs at most once (so
each loop's backward pass runs at most once per call, and only when its
flag is false at entry), and with bClearGradient = false the call never
clears a flag that was set at entry, so such a loop's backward pass is
skipped entirely. -/
theorem resetEvalTimeStampS_gpairs (s : NState) :
    gradPairs (resetEvalTimeStampS s).trace = gradPairs s.trace := by
  simp [resetEvalTimeStampS, gradPairs, gradPair, List.filterMap_append]

theorem clearGradientForAllNodesS_gpairs (s : NState) :
    gradPairs (clearGradientForAllNodesS s).trace = gradPairs s.trace := by
  simp [clearGradientForAllNodesS, gradPairs, gradPair, List.filterMap_append]

theorem gradWalkFromEmpty_count (net : Net) (hwf : WFNet net) (s2 : NState)
    (hp2 : gradPairs s2.trace = [])
    (hl2 : s2.completedGradient.length = net.recurrentInfo.length)
    (p : Nat × Option Nat) :
    (gradPairs (gradWalk net (GetGradientCalcOrder net) s2).trace).count p ≤ 1 := by
  have hInv0 : InvG net (GetGradientCalcOrder net) s2 := by
    refine ⟨?_, ?_, ?_, hl2⟩ <;> simp [hp2]
  have hnd : (GetGradientCalcOrder net).Nodup := by
    unfold GetGradientCalcOrder
    exact List.nodup_reverse.mpr hwf.1
  exact count_le_one_of_nodup (gradWalk_inv net hwf (GetGradientCalcOrder net) s2 hnd hInv0).1 p

theorem computeGradientBackward_count (net : Net) (hwf : WFNet net) (ps : GradParams)
    (s1 : NState) (hp1 : gradPairs s1.trace = [])
    (hl1 : s1.completedGradient.length = net.recurrentInfo.length)
    (p : Nat × Option Nat) :
    (gradPairs (computeGradientBackward net ps s1).trace).count p ≤ 1 := by
  unfold computeGradientBackward
  cases hcl : ps.bClearGradient <;> cases hrs : ps.resetTimeStampAfterComputation <;>
    dsimp only <;> simp only [hcl, hrs, Bool.false_eq_true, if_false, if_true]
  · exact gradWalkFromEmpty_count net hwf
      { s1 with rootGradient := seedRootGradient ps s1.rootGradient } hp1 hl1 p
  · rw [resetEvalTimeStampS_gpairs]
    exact gradWalkFromEmpty_count net hwf
      { s1 with rootGradient := seedRootGradient ps s1.rootGradient } hp1 hl1 p
  · exact gradWalkFromEmpty_count net hwf
      { clearGradientForAllNodesS s1 with
          rootGradient := seedRootGradient ps (clearGradientForAllNodesS s1).rootGradient }
      ((clearGradientForAllNodesS_gpairs s1).trans hp1) hl1 p
  · rw [resetEvalTimeStampS_gpairs]
    exact gradWalkFromEmpty_count net hwf
      { clearGradientForAllNodesS s1 with
          rootGradient := seedRootGradient ps (clearGradientForAllNodesS s1).rootGradient }
      ((clearGradientForAllNodesS_gpairs s1).trans hp1) hl1 p

theorem computeGradientBackward_flagmono (net : Net) (ps : GradParams) (s1 : NState)
    (hcl : ps.bClearGradient = false) (i : Nat)
    (h : s1.completedGradient.getD i false = true) :
    (computeGradientBackward net ps s1).completedGradient.getD i false = true := by
  unfold computeGradientBackward
  cases hrs : ps.resetTimeStampAfterComputation <;>
    dsimp only <;> simp only [hcl, hrs, Bool.false_eq_true, if_false, if_true] <;>
      exact gradWalk_flag_mono net _ _ i h

/-- C1 amended: ComputeGradient contains no reset of the
m_completedGradient flags.  What holds instead: within one call each
(node, frame) ComputeGradientForChildren pair occurs at most once (so
each loop's backward pass runs at most once per call, and only when its
flag is false at entry), and with bClearGradient = false the call never
clears a flag that was set at entry, so such a loop's backward pass is
skipped entirely. -/
theorem C1_amended_no_reset (net : Net) (ps : GradParams) (s : NState) (hwf : WFNet net)
    (htrace : s.trace = [])
    (hlen : s.completedGradient.length = net.recurrentInfo.length) :
    (∀ p : Nat × Option Nat, (gradPairs (ComputeGradient net ps s).trace).count p ≤ 1)
    ∧ (ps.bClearGradient = false → ∀ i : Nat,
        s.completedGradient.getD i false = true →
        (ComputeGradient net ps s).completedGradient.getD i false = true) := by
  have hev := Evaluate_gstate net s
  have hevp : gradPairs (Evaluate net s).trace = [] := by
    rw [hev.1, htrace]; rfl
  unfold ComputeGradient
  dsimp only
  split
  · constructor
    · intro p; rw [hevp]; simp
    · intro _ i h; rw [hev.2]; exact h
  · constructor
    · intro p
      exact computeGradientBackward_count net hwf ps (Evaluate net s) hevp
        (by rw [hev.2]; exact hlen) p
    · intro hcl i h
      exact computeGradientBackward_flagmono net ps (Evaluate net s) hcl i
        (by rw [hev.2]; exact h)

theorem C1_amended_no_reset_witness :
    (gradPairs (ComputeGradient netLoop1 ⟨true, none, false, false⟩ sLoopDone).trace).count
        (3, some 0) ≤ 1
    ∧ (ComputeGradient netLoop1 ⟨true, none, false, false⟩ sLoopDone).completedGradient.getD 0 false
        = true :=
  ⟨(C1_amended_no_reset netLoop1 ⟨true, none, false, false⟩ sLoopDone
      (by unfold WFNet; decide) rfl rfl).1 (3, some 0),
   (C1_amended_no_reset netLoop1 ⟨true, none, false, false⟩ sLoopDone
      (by unfold WFNet; decide) rfl rfl).2 rfl 0 rfl⟩

end CNTK
